import Mathlib

/-!
Verification of the skeleton-tree builder
(`src/libV2/helpers/collection/generateSkeletionTreeFromOpenAPI.js`).

The JavaScript source is shallowly embedded below: the ordered JS objects
(`openapi.paths`, verb maps, `webhooks`) become insertion-ordered association
lists, the graphlib graph becomes an explicit record of ordered node and edge
lists, and the three construction functions (`_generateTreeFromPathsV2`,
`_generateTreeFromTags`, `_generateWebhookEndpoints`) together with the
dispatching `module.exports` become structurally recursive Lean functions.
-/

namespace O2P

/-- Operation record stored under a verb key of a path item or webhook item.
The input contract gives it shape `{deprecated?: bool, tags?: string[], ...}`;
all other fields are opaque to the tree builder and therefore omitted.
A missing `tags` field is modelled as the empty list (the code only tests
`data.tags && data.tags.length > 0`). -/
structure Operation where
  deprecated : Bool := false
  tags : List String := []
  deriving DecidableEq, Repr

/-- Declared tag descriptor from `openapi.tags` (`{name, description?}`). -/
structure TagDecl where
  name : String
  description : Option String := none
  deriving DecidableEq, Repr

/-- Ordered verb-to-operation map of a single path or webhook. -/
abbrev PathItem := List (String × Operation)

/-- The slice of the parsed OpenAPI object consumed by the tree builder:
`paths`, the declared `tags` list and the `webhooks` map, each in declaration
order.  JS object keys are unique; the list model allows duplicates, which the
JS runtime would merge, so theorems that depend on key uniqueness state it. -/
structure OpenAPI where
  paths : List (String × PathItem) := []
  tags : List TagDecl := []
  webhooks : List (String × PathItem) := []
  deriving DecidableEq, Repr

/-- Meta attributes written into a node record.  Fields that a given creation
site does not set are `none` (absent in the JS object). -/
structure NodeMeta where
  name : Option String := none
  path : Option String := none
  pathIdentifier : Option String := none
  method : Option String := none
  tag : Option String := none
  description : Option String := none
  deriving DecidableEq, Repr

/-- Node record: the `{ type, meta, data }` object attached to each graph
node.  `data` is always the empty object at creation and is never written by
this core, so it is omitted. -/
structure NodeRecord where
  type : String
  meta : NodeMeta := {}
  deriving DecidableEq, Repr

/-- Insertion-ordered map update with JS object semantics: assigning to an
existing key overwrites the value in place (keeping the key's original
position); a new key is appended at the end. -/
def setAssoc {α : Type} : List (String × α) → String → α → List (String × α)
  | [], k, v => [(k, v)]
  | (k', v') :: rest, k, v =>
    if k' = k then (k, v) :: rest else (k', v') :: setAssoc rest k v

/-- Insertion-ordered map lookup: the value stored at a key, if present. -/
def lookupA {α : Type} (m : List (String × α)) (k : String) : Option α :=
  (m.find? (fun e => e.1 == k)).map (fun e => e.2)

/-- Modelled from the spec (§4.1 Node/Edge Store): the store itself is the
external `graphlib` dependency, which is not part of `src/`.  Per the spec's
contract, `setNode` creates or overwrites a node record (insertion order
preserved), `setEdge` creates a directed edge where duplicate calls with the
same pair are no-ops, and nodes/edges enumerate in insertion order.
`nodeWrites` and `edgeWrites` additionally log every `setNode`/`setEdge` call
in order, to express the creation-once lifecycle claims. -/
structure Graph where
  nodes : List (String × NodeRecord) := []
  edges : List (String × String) := []
  nodeWrites : List (String × NodeRecord) := []
  edgeWrites : List (String × String) := []
  deriving DecidableEq, Repr

def Graph.getNode (g : Graph) (id : String) : Option NodeRecord :=
  lookupA g.nodes id

def Graph.hasNode (g : Graph) (id : String) : Bool :=
  (g.getNode id).isSome

def Graph.setNode (g : Graph) (id : String) (r : NodeRecord) : Graph :=
  { g with
    nodes := setAssoc g.nodes id r
    nodeWrites := g.nodeWrites ++ [(id, r)] }

def Graph.hasEdge (g : Graph) (p c : String) : Bool :=
  g.edges.contains (p, c)

def Graph.setEdge (g : Graph) (p c : String) : Graph :=
  { g with
    edges := if g.edges.contains (p, c) then g.edges else g.edges ++ [(p, c)]
    edgeWrites := g.edgeWrites ++ [(p, c)] }

/-- The guarded creation pattern `if (!tree.hasNode(id)) tree.setNode(id, r)`. -/
def ensureNode (t : Graph) (id : String) (r : NodeRecord) : Graph :=
  if t.hasNode id then t else t.setNode id r

/-- The guarded edge pattern `if (!tree.hasEdge(p, c)) tree.setEdge(p, c)`. -/
def ensureEdge (t : Graph) (p c : String) : Graph :=
  if t.hasEdge p c then t else t.setEdge p c

/-- The `ALLOWED_HTTP_METHODS` allow-list object from the source. -/
def ALLOWED_HTTP_METHODS : List String :=
  ["get", "head", "post", "put", "patch", "delete", "connect", "options", "trace"]

/-- JS `ALLOWED_HTTP_METHODS[method]` truthiness test. -/
def allowedMethod (m : String) : Bool := ALLOWED_HTTP_METHODS.contains m

/-- Characterwise split on a slash; models JS `completePath.split('/')`
(which keeps empty chunks for leading, trailing and doubled slashes). -/
def splitSlash : List Char → List (List Char)
  | [] => [[]]
  | c :: rest =>
    match splitSlash rest with
    | [] => [[c]]
    | h :: t => if c = '/' then [] :: h :: t else (c :: h) :: t

/-- JS `completePath === '/' ? [completePath] : _.compact(completePath.split('/'))`:
the literal root path stays a one-element list; otherwise split on `/` and
drop empty (falsy) segments. -/
def pathSplitOf (completePath : String) : List String :=
  if completePath = "/" then [completePath]
  else ((splitSlash completePath.data).map (fun cs => String.mk cs)).filter
    (fun s => s != "")

/-- JS `Array.prototype.join('/')` over a segment list. -/
def joinSegs : List String → String
  | [] => ""
  | [s] => s
  | s :: rest => s ++ "/" ++ joinSegs rest

/-- JS `array[0]` on the segment list (only used where the list is nonempty). -/
def headSeg (l : List String) : String := l.headD ""

/-- Node id `path:folder:${pathIdentifier}` of the path strategy. -/
def folderNodeId (pid : String) : String := "path:" ++ ("folder:" ++ pid)

/-- Node id `path:request:${pathIdentifier}:${method}` of the path strategy. -/
def requestNodeId (pid m : String) : String :=
  "path:" ++ ("request:" ++ (pid ++ (":" ++ m)))

/-- Node id `path:${tag}` of the tag strategy. -/
def tagFolderId (tag : String) : String := "path:" ++ tag

/-- Node id `path:${tag}:${path}:${method}` of the tag strategy. -/
def tagRequestId (tag p m : String) : String :=
  "path:" ++ (tag ++ (":" ++ (p ++ (":" ++ m))))

/-- Node id `path:${path}:${method}` for an operation without tags. -/
def noTagRequestId (p m : String) : String := "path:" ++ (p ++ (":" ++ m))

/-- Node id `${PATH_WEBHOOK}:folder` of the webhook augmenter. -/
def webhookFolderId : String := "path~webhook:folder"

/-- Node id `${PATH_WEBHOOK}:${path}:${method}` of the webhook augmenter. -/
def webhookRequestId (name m : String) : String :=
  "path~webhook:" ++ (name ++ (":" ++ m))

/-- The root record `{type: 'collection', data: {}, meta: {}}`. -/
def collectionRec : NodeRecord := { type := "collection" }

/-- Folder record of the path strategy: `meta = {name: seg, path: seg,
pathIdentifier}` (at every creation site `name` and `path` are the current
segment). -/
def pathFolderRec (seg pid : String) : NodeRecord :=
  { type := "folder"
    meta := { name := some seg, path := some seg, pathIdentifier := some pid } }

/-- Request record of the path strategy:
`meta = {path: completePath, method, pathIdentifier}`. -/
def pathRequestRec (completePath m pid : String) : NodeRecord :=
  { type := "request"
    meta := { path := some completePath, method := some m, pathIdentifier := some pid } }

/-- Folder record of the tag strategy: `meta = {path, name: tag, description}`
(`path` is `''` for declared tags and the current path for the safeguard). -/
def tagFolderRec (tag pathMeta : String) (desc : Option String) : NodeRecord :=
  { type := "folder"
    meta := { path := some pathMeta, name := some tag, description := desc } }

/-- Request record of the tag strategy: `meta = {tag, path, method}`. -/
def tagRequestRec (tag p m : String) : NodeRecord :=
  { type := "request"
    meta := { tag := some tag, path := some p, method := some m } }

/-- Request record for an untagged operation: `meta = {path, method}`. -/
def noTagRequestRec (p m : String) : NodeRecord :=
  { type := "request", meta := { path := some p, method := some m } }

/-- The webhook folder record. -/
def webhookFolderRec : NodeRecord :=
  { type := "webhook~folder"
    meta := { path := some "webhook~folder", name := some "webhook~folder"
              description := some "" } }

/-- Webhook request record: `meta = {path: webhookName, method}`. -/
def webhookRequestRec (name m : String) : NodeRecord :=
  { type := "webhook~request"
    meta := { path := some name, method := some m } }

/-- JS `openapi.paths[completePath]`; a missing key yields `undefined`, over
which `_.forEach` is a no-op, hence the empty default. -/
def getPathItem (openapi : OpenAPI) (p : String) : PathItem :=
  ((openapi.paths.find? (fun e => e.1 == p)).map (fun e => e.2)).getD []

/-- Body of the `_.forEach(methods, ...)` loop of the single-segment branch of
`_generateTreeFromPathsV2` (source lines 74-112). -/
def singleStep (includeDeprecated : Bool) (completePath seg : String)
    (t : Graph) (entry : String × Operation) : Graph :=
  if allowedMethod entry.1 = false then t
  else if !includeDeprecated && entry.2.deprecated then t
  else
    let t1 :=
      if t.hasNode (folderNodeId seg) then t
      else
        (t.setNode (folderNodeId seg) (pathFolderRec seg seg)).setEdge
          "root:collection" (folderNodeId seg)
    (t1.setNode (requestNodeId seg entry.1)
        (pathRequestRec completePath entry.1 seg)).setEdge
      (folderNodeId seg) (requestNodeId seg entry.1)

/-- Body of the `_.forEach(methods, ...)` loop at the final index of the
multi-segment branch (source lines 123-169). -/
def finalStep (includeDeprecated : Bool) (completePath : String)
    (pathSplit : List String) (idx : Nat) (seg : String)
    (t : Graph) (entry : String × Operation) : Graph :=
  if allowedMethod entry.1 = false then t
  else if !includeDeprecated && entry.2.deprecated then t
  else
    let previousPathIdentified := joinSegs (pathSplit.take idx)
    let pathIdentifier := joinSegs (pathSplit.take (idx + 1))
    let t1 :=
      if t.hasNode (folderNodeId pathIdentifier) then t
      else
        (t.setNode (folderNodeId pathIdentifier)
            (pathFolderRec seg pathIdentifier)).setEdge
          (if idx = 0 then "root:collection" else folderNodeId previousPathIdentified)
          (folderNodeId pathIdentifier)
    (t1.setNode (requestNodeId pathIdentifier entry.1)
        (pathRequestRec completePath entry.1 pathIdentifier)).setEdge
      (folderNodeId pathIdentifier) (requestNodeId pathIdentifier entry.1)

/-- Body of the `_.forEach(pathSplit, ...)` loop of the multi-segment branch
(source lines 116-192): final index adds the requests, a non-final index
ensures the intermediate folder and its edge. -/
def segStep (openapi : OpenAPI) (includeDeprecated : Bool) (completePath : String)
    (pathSplit : List String) (t : Graph) (idxSeg : Nat × String) : Graph :=
  if idxSeg.1 + 1 = pathSplit.length then
    (getPathItem openapi completePath).foldl
      (finalStep includeDeprecated completePath pathSplit idxSeg.1 idxSeg.2) t
  else
    ensureEdge
      (ensureNode t (folderNodeId (joinSegs (pathSplit.take (idxSeg.1 + 1))))
        (pathFolderRec idxSeg.2 (joinSegs (pathSplit.take (idxSeg.1 + 1)))))
      (if idxSeg.1 = 0 then "root:collection"
       else folderNodeId (joinSegs (pathSplit.take idxSeg.1)))
      (folderNodeId (joinSegs (pathSplit.take (idxSeg.1 + 1))))

/-- `_.forEach` with index, as a list of `(index, element)` pairs. -/
def enumFrom {α : Type} : Nat → List α → List (Nat × α)
  | _, [] => []
  | i, a :: rest => (i, a) :: enumFrom (i + 1) rest

/-- Body of the `_.forEach(paths, ...)` loop of `_generateTreeFromPathsV2`
(source lines 59-194): one declared path processed against the tree. -/
def processPath (openapi : OpenAPI) (includeDeprecated : Bool) (t : Graph)
    (completePath : String) : Graph :=
  if (pathSplitOf completePath).length = 1 then
    (getPathItem openapi completePath).foldl
      (singleStep includeDeprecated completePath (headSeg (pathSplitOf completePath))) t
  else
    (enumFrom 0 (pathSplitOf completePath)).foldl
      (segStep openapi includeDeprecated completePath (pathSplitOf completePath)) t

/-- `_generateTreeFromPathsV2` (source lines 38-197): root node first, then
the paths are folded in declaration order (the empty case returns the
root-only tree, which equals the empty fold). -/
def _generateTreeFromPathsV2 (openapi : OpenAPI) (includeDeprecated : Bool) : Graph :=
  if (openapi.paths.map (fun e => e.1)).isEmpty then
    Graph.setNode {} "root:collection" collectionRec
  else
    (openapi.paths.map (fun e => e.1)).foldl (processPath openapi includeDeprecated)
      (Graph.setNode {} "root:collection" collectionRec)

/-- The `tagDescMap` reduction of `_generateTreeFromTags` (source lines
357-361): each declared descriptor assigns `acc[data.name] = data.description`
in order. -/
def tagDescMapOf (tags : List TagDecl) : List (String × Option String) :=
  tags.foldl (fun acc d => setAssoc acc d.name d.description) []

/-- Body of the `_.forEach(tagDescMap, ...)` folder-creation loop (source
lines 372-391). -/
def tagFolderStep (t : Graph) (entry : String × Option String) : Graph :=
  if t.hasNode (tagFolderId entry.1) then t
  else
    (t.setNode (tagFolderId entry.1) (tagFolderRec entry.1 "" entry.2)).setEdge
      "root:collection" (tagFolderId entry.1)

/-- Body of the `_.forEach(data.tags, ...)` loop (source lines 412-439):
request node keyed by `(tag, path, method)` plus the safeguard folder. -/
def tagOpTagStep (tagDescMap : List (String × Option String)) (p m : String)
    (t : Graph) (tag : String) : Graph :=
  let t1 := t.setNode (tagRequestId tag p m) (tagRequestRec tag p m)
  let t2 :=
    if t1.hasNode (tagFolderId tag) then t1
    else
      (t1.setNode (tagFolderId tag)
          (tagFolderRec tag p ((lookupA tagDescMap tag).join))).setEdge
        "root:collection" (tagFolderId tag)
  t2.setEdge (tagFolderId tag) (tagRequestId tag p m)

/-- Body of the `_.forEach(methods, ...)` loop of `_generateTreeFromTags`
(source lines 394-454). -/
def tagMethodStep (tagDescMap : List (String × Option String))
    (includeDeprecated : Bool) (p : String) (t : Graph)
    (entry : String × Operation) : Graph :=
  if allowedMethod entry.1 = false then t
  else if !includeDeprecated && entry.2.deprecated then t
  else if entry.2.tags.isEmpty = false then
    entry.2.tags.foldl (tagOpTagStep tagDescMap p entry.1) t
  else
    (t.setNode (noTagRequestId p entry.1) (noTagRequestRec p entry.1)).setEdge
      "root:collection" (noTagRequestId p entry.1)

/-- Body of the `_.forEach(openapi.paths, ...)` loop of
`_generateTreeFromTags` (source lines 393-455). -/
def tagPathStep (tagDescMap : List (String × Option String))
    (includeDeprecated : Bool) (t : Graph) (entry : String × PathItem) : Graph :=
  entry.2.foldl (tagMethodStep tagDescMap includeDeprecated entry.1) t

/-- `_generateTreeFromTags` (source lines 354-458): root node, one folder per
declared tag, then the paths fold. -/
def _generateTreeFromTags (openapi : OpenAPI) (includeDeprecated : Bool) : Graph :=
  openapi.paths.foldl (tagPathStep (tagDescMapOf openapi.tags) includeDeprecated)
    ((tagDescMapOf openapi.tags).foldl tagFolderStep
      (Graph.setNode {} "root:collection" collectionRec))

/-- Body of the inner `_.forEach(methodData, ...)` loop of
`_generateWebhookEndpoints` (source lines 491-507): note there is no
allowed-method filtering here, only the deprecation check. -/
def webhookMethodStep (includeDeprecated : Bool) (name : String)
    (t : Graph) (entry : String × Operation) : Graph :=
  if !includeDeprecated && entry.2.deprecated then t
  else
    (t.setNode (webhookRequestId name entry.1) (webhookRequestRec name entry.1)).setEdge
      webhookFolderId (webhookRequestId name entry.1)

/-- Body of the outer `_.forEach(openapi.webhooks, ...)` loop (source lines
490-508). -/
def webhookPathStep (includeDeprecated : Bool) (t : Graph)
    (entry : String × PathItem) : Graph :=
  entry.2.foldl (webhookMethodStep includeDeprecated entry.1) t

/-- `_generateWebhookEndpoints` (source lines 475-511): the webhook folder is
created only when the webhook map is non-empty, then every webhook is folded. -/
def _generateWebhookEndpoints (openapi : OpenAPI) (tree : Graph)
    (includeDeprecated : Bool) : Graph :=
  openapi.webhooks.foldl (webhookPathStep includeDeprecated)
    (if openapi.webhooks.isEmpty then tree
     else
       (tree.setNode webhookFolderId webhookFolderRec).setEdge
         "root:collection" webhookFolderId)

/-- The options object destructured by `module.exports`. -/
structure GenOptions where
  folderStrategy : String
  includeWebhooks : Bool := false
  includeDeprecated : Bool := false
  deriving DecidableEq, Repr

/-- `module.exports` (source lines 521-542): dispatch on `folderStrategy`,
optionally augment with webhooks; any other strategy value throws.  The JS
`throw` is modelled as `Except.error` with the thrown message. -/
def generateSkeletionTreeFromOpenAPI (openapi : OpenAPI) (options : GenOptions) :
    Except String Graph :=
  if options.folderStrategy = "tags" then
    Except.ok
      (if options.includeWebhooks then
        _generateWebhookEndpoints openapi
          (_generateTreeFromTags openapi options.includeDeprecated)
          options.includeDeprecated
      else _generateTreeFromTags openapi options.includeDeprecated)
  else if options.folderStrategy = "paths" then
    Except.ok
      (if options.includeWebhooks then
        _generateWebhookEndpoints openapi
          (_generateTreeFromPathsV2 openapi options.includeDeprecated)
          options.includeDeprecated
      else _generateTreeFromPathsV2 openapi options.includeDeprecated)
  else Except.error "generateSkeletonTreeFromOpenAPI~folderStrategy not valid"

/-- An operation with its `deprecated` flag cleared. -/
def clearOp (op : Operation) : Operation := { op with deprecated := false }

/-- A path item with every operation's `deprecated` flag cleared. -/
def clearItem (item : PathItem) : PathItem :=
  item.map (fun e => (e.1, clearOp e.2))

/-- The specification with every `deprecated` flag (paths and webhooks)
cleared. -/
def clearDeprecated (o : OpenAPI) : OpenAPI :=
  { o with
    paths := o.paths.map (fun e => (e.1, clearItem e.2))
    webhooks := o.webhooks.map (fun e => (e.1, clearItem e.2)) }

/-- A path item with deprecated operations removed. -/
def dropItem (item : PathItem) : PathItem :=
  item.filter (fun e => !e.2.deprecated)

/-- The specification with deprecated operations removed from every path item
and every webhook item (path and webhook keys themselves are kept). -/
def dropDeprecated (o : OpenAPI) : OpenAPI :=
  { o with
    paths := o.paths.map (fun e => (e.1, dropItem e.2))
    webhooks := o.webhooks.map (fun e => (e.1, dropItem e.2)) }

/-- A path item restricted to allowed HTTP methods. -/
def keepAllowedItem (item : PathItem) : PathItem :=
  item.filter (fun e => allowedMethod e.1)

/-- The specification with non-allowed keys removed from every path item;
webhook items are deliberately untouched (the code never filters them). -/
def dropNotAllowed (o : OpenAPI) : OpenAPI :=
  { o with paths := o.paths.map (fun e => (e.1, keepAllowedItem e.2)) }

/-- Key list of an ordered map, in insertion order. -/
def keys {α : Type} (m : List (String × α)) : List String := m.map (fun e => e.1)

/-! Generic fold lemmas used to reason about the `_.forEach` loops. -/

theorem foldl_pres {α β : Type} {f : β → α → β} {P : β → Prop} :
    ∀ (l : List α) (t : β), (∀ t a, a ∈ l → P t → P (f t a)) → P t → P (l.foldl f t)
  | [], _, _, h => h
  | a :: l, t, hp, h =>
    foldl_pres l (f t a) (fun t' b hb => hp t' b (List.mem_cons_of_mem a hb))
      (hp t a (List.mem_cons_self a l) h)

theorem foldl_estab {α β : Type} {f : β → α → β} {P Q : β → Prop} :
    ∀ (l : List α) (t : β) (a : α), a ∈ l → Q t →
      (∀ t b, b ∈ l → Q t → Q (f t b)) →
      (∀ t, Q t → P (f t a)) →
      (∀ t b, b ∈ l → P t → P (f t b)) →
      P (l.foldl f t) := by
  intro l
  induction l with
  | nil => intro t a ha; exact absurd ha (List.not_mem_nil a)
  | cons b l ih =>
    intro t a ha hQ hQp hest hPp
    rcases List.mem_cons.mp ha with h | h
    · subst h
      exact foldl_pres l (f t a)
        (fun t' c hc => hPp t' c (List.mem_cons_of_mem a hc)) (hest t hQ)
    · exact ih (f t b) a h (hQp t b (List.mem_cons_self b l) hQ)
        (fun t' c hc => hQp t' c (List.mem_cons_of_mem b hc)) hest
        (fun t' c hc => hPp t' c (List.mem_cons_of_mem b hc))

theorem foldl_estab_simple {α β : Type} {f : β → α → β} {P : β → Prop} :
    ∀ (l : List α) (t : β) (a : α), a ∈ l →
      (∀ t, P (f t a)) →
      (∀ t b, b ∈ l → P t → P (f t b)) →
      P (l.foldl f t) := by
  intro l t a ha hest hp
  exact @foldl_estab α β f P (fun _ => True) l t a ha trivial (fun _ _ _ _ => trivial)
    (fun t' _ => hest t') hp

theorem foldl_congr {α β : Type} {f g : β → α → β} :
    ∀ (l : List α) (t : β), (∀ t a, a ∈ l → f t a = g t a) →
      l.foldl f t = l.foldl g t := by
  intro l
  induction l with
  | nil => intro t _; rfl
  | cons a l ih =>
    intro t h
    simp only [List.foldl_cons]
    rw [h t a (List.mem_cons_self a l)]
    exact ih (g t a) (fun t' b hb => h t' b (List.mem_cons_of_mem a hb))

theorem foldl_filter_skip {α β : Type} {f : β → α → β} {q : α → Bool} :
    ∀ (l : List α) (t : β), (∀ t a, a ∈ l → q a = false → f t a = t) →
      l.foldl f t = (l.filter q).foldl f t := by
  intro l
  induction l with
  | nil => intro t _; rfl
  | cons a l ih =>
    intro t h
    by_cases hq : q a
    · simp only [List.foldl_cons, List.filter_cons, hq, if_pos]
      exact ih (f t a) (fun t' b hb => h t' b (List.mem_cons_of_mem a hb))
    · have hqa : q a = false := by simpa using hq
      simp only [List.foldl_cons, List.filter_cons, hqa, Bool.false_eq_true, if_neg,
        ite_false]
      rw [h t a (List.mem_cons_self a l) hqa]
      exact ih t (fun t' b hb => h t' b (List.mem_cons_of_mem a hb))

/-! Ordered-map lemmas. -/

theorem keys_nil {α : Type} : keys ([] : List (String × α)) = [] := rfl

theorem keys_cons {α : Type} (e : String × α) (m : List (String × α)) :
    keys (e :: m) = e.1 :: keys m := rfl

theorem keys_append {α : Type} (m m' : List (String × α)) :
    keys (m ++ m') = keys m ++ keys m' := by
  simp [keys]

theorem lookupA_cons {α : Type} (e : String × α) (m : List (String × α)) (k : String) :
    lookupA (e :: m) k = if e.1 = k then some e.2 else lookupA m k := by
  obtain ⟨k', v'⟩ := e
  by_cases h : k' = k <;> simp [lookupA, List.find?_cons, h]

theorem setAssoc_cons {α : Type} (e : String × α) (m : List (String × α)) (k : String) (v : α) :
    setAssoc (e :: m) k v =
      if e.1 = k then (k, v) :: m else e :: setAssoc m k v := by
  obtain ⟨k', v'⟩ := e
  by_cases h : k' = k <;> simp [setAssoc, h]

theorem lookupA_setAssoc_self {α : Type} :
    ∀ (m : List (String × α)) (k : String) (v : α), lookupA (setAssoc m k v) k = some v := by
  intro m
  induction m with
  | nil => intro k v; simp [setAssoc, lookupA_cons]
  | cons e m ih =>
    intro k v
    rw [setAssoc_cons]
    by_cases h : e.1 = k
    · rw [if_pos h, lookupA_cons, if_pos rfl]
    · rw [if_neg h, lookupA_cons, if_neg h, ih k v]

theorem lookupA_setAssoc_ne {α : Type} :
    ∀ (m : List (String × α)) (k : String) (v : α) (k' : String), k' ≠ k →
      lookupA (setAssoc m k v) k' = lookupA m k' := by
  intro m
  induction m with
  | nil =>
    intro k v k' h
    rw [show setAssoc ([] : List (String × α)) k v = [(k, v)] from rfl, lookupA_cons,
      if_neg (fun hh => h hh.symm)]
  | cons e m ih =>
    intro k v k' h
    rw [setAssoc_cons]
    by_cases he : e.1 = k
    · rw [if_pos he, lookupA_cons, lookupA_cons]
      have h1 : ¬((k, v).1 = k') := fun hh => h hh.symm
      have h2 : ¬(e.1 = k') := fun hh => h (hh.symm.trans he)
      rw [if_neg h1, if_neg h2]
    · rw [if_neg he, lookupA_cons, lookupA_cons, ih k v k' h]

theorem lookupA_isSome {α : Type} :
    ∀ (m : List (String × α)) (k : String), ((lookupA m k).isSome = true) ↔ k ∈ keys m := by
  intro m
  induction m with
  | nil => intro k; simp [lookupA, keys]
  | cons e m ih =>
    intro k
    rw [lookupA_cons, keys_cons]
    by_cases h : e.1 = k
    · simp [h]
    · rw [if_neg h]
      simp only [List.mem_cons]
      rw [ih k]
      constructor
      · exact fun hh => Or.inr hh
      · rintro (hh | hh)
        · exact absurd hh.symm h
        · exact hh

theorem lookupA_none_of_not_mem {α : Type} {m : List (String × α)} {k : String}
    (h : k ∉ keys m) : lookupA m k = none := by
  cases hl : lookupA m k with
  | none => rfl
  | some v => exact absurd ((lookupA_isSome m k).mp (by simp [hl])) h

theorem mem_of_lookupA {α : Type} {m : List (String × α)} {k : String} {v : α}
    (h : lookupA m k = some v) : (k, v) ∈ m := by
  simp only [lookupA, Option.map_eq_some'] at h
  rcases h with ⟨e, he, hv⟩
  have h1 : e.1 = k := by simpa using List.find?_some he
  have h2 := List.mem_of_find?_eq_some he
  have he2 : e = (k, v) := by
    obtain ⟨a, b⟩ := e
    simp only at h1 hv
    rw [h1, hv]
  rwa [he2] at h2

theorem lookupA_of_mem_nodup {α : Type} :
    ∀ {m : List (String × α)} {k : String} {v : α},
      (k, v) ∈ m → (keys m).Nodup → lookupA m k = some v := by
  intro m
  induction m with
  | nil => intro k v h _; exact absurd h (List.not_mem_nil _)
  | cons e m ih =>
    intro k v h hn
    rw [keys_cons] at hn
    have hn' := List.nodup_cons.mp hn
    rcases List.mem_cons.mp h with h | h
    · rw [← h, lookupA_cons, if_pos rfl]
    · have hk : k ∈ keys m := List.mem_map.mpr ⟨(k, v), h, rfl⟩
      have hne : e.1 ≠ k := fun he => hn'.1 (he ▸ hk)
      rw [lookupA_cons, if_neg hne]
      exact ih h hn'.2

theorem mem_keys_setAssoc {α : Type} :
    ∀ (m : List (String × α)) (k : String) (v : α) (k' : String),
      k' ∈ keys (setAssoc m k v) ↔ k' = k ∨ k' ∈ keys m := by
  intro m
  induction m with
  | nil => intro k v k'; simp [setAssoc, keys]
  | cons e m ih =>
    intro k v k'
    rw [setAssoc_cons]
    by_cases h : e.1 = k
    · rw [if_pos h, keys_cons, keys_cons]
      subst h
      simp only [List.mem_cons]
      tauto
    · rw [if_neg h, keys_cons, keys_cons]
      simp only [List.mem_cons]
      rw [ih k v k']
      tauto

theorem keys_nodup_setAssoc {α : Type} :
    ∀ (m : List (String × α)) (k : String) (v : α),
      (keys m).Nodup → (keys (setAssoc m k v)).Nodup := by
  intro m
  induction m with
  | nil => intro k v _; simp [setAssoc, keys]
  | cons e m ih =>
    intro k v hn
    rw [keys_cons] at hn
    have hn' := List.nodup_cons.mp hn
    rw [setAssoc_cons]
    by_cases h : e.1 = k
    · rw [if_pos h, keys_cons]
      subst h
      exact List.nodup_cons.mpr hn'
    · rw [if_neg h, keys_cons]
      refine List.nodup_cons.mpr ⟨?_, ih k v hn'.2⟩
      intro hmem
      rcases (mem_keys_setAssoc m k v e.1).mp hmem with h1 | h1
      · exact h h1
      · exact hn'.1 h1

theorem setAssoc_not_mem {α : Type} :
    ∀ (m : List (String × α)) (k : String) (v : α), k ∉ keys m →
      setAssoc m k v = m ++ [(k, v)] := by
  intro m
  induction m with
  | nil => intro k v _; rfl
  | cons e m ih =>
    intro k v h
    rw [keys_cons] at h
    have hne : e.1 ≠ k := fun hh => h (by rw [hh]; exact List.mem_cons_self _ _)
    rw [setAssoc_cons, if_neg hne, List.cons_append,
      ih k v (fun hm => h (List.mem_cons_of_mem _ hm))]

/-! `enumFrom` lemmas. -/

theorem enumFrom_mem_of {α : Type} :
    ∀ (l : List α) (i j : Nat) (h : j < l.length), (i + j, l.get ⟨j, h⟩) ∈ enumFrom i l := by
  intro l
  induction l with
  | nil => intro i j h; simp at h
  | cons a l ih =>
    intro i j h
    cases j with
    | zero => simp [enumFrom]
    | succ j =>
      have := ih (i + 1) j (Nat.lt_of_succ_lt_succ h)
      simp only [enumFrom, List.mem_cons]
      right
      have harith : i + (j + 1) = i + 1 + j := by omega
      rw [harith]
      exact this

/-! String-shape lemmas about the node-identifier templates. -/

theorem strAppend_cancel_left {a b c : String} (h : a ++ b = a ++ c) : b = c := by
  have hd := congrArg String.data h
  rw [String.data_append, String.data_append] at hd
  exact String.ext (List.append_cancel_left hd)

theorem strAppend_cancel_right {a b c : String} (h : a ++ c = b ++ c) : a = b := by
  have hd := congrArg String.data h
  rw [String.data_append, String.data_append] at hd
  exact String.ext (List.append_cancel_right hd)

theorem append_ne_of_nth (u v : String) (i : Nat) (c₁ c₂ : Char)
    (h₁ : u.data[i]? = some c₁) (h₂ : v.data[i]? = some c₂) (hne : c₁ ≠ c₂) :
    ∀ a b : String, u ++ a ≠ v ++ b := by
  intro a b h
  have hd := congrArg String.data h
  rw [String.data_append, String.data_append] at hd
  have hu : i < u.data.length := (List.getElem?_eq_some.mp h₁).1
  have hv : i < v.data.length := (List.getElem?_eq_some.mp h₂).1
  have e1 : (u.data ++ a.data)[i]? = some c₁ := by
    rw [List.getElem?_append_left hu]; exact h₁
  have e2 : (v.data ++ b.data)[i]? = some c₂ := by
    rw [List.getElem?_append_left hv]; exact h₂
  rw [hd, e2] at e1
  exact hne (Option.some.inj e1).symm

theorem folderNodeId_eq (a : String) : folderNodeId a = "path:folder:" ++ a := by
  rw [folderNodeId, ← String.append_assoc]
  rfl

theorem requestNodeId_eq (pid m : String) :
    requestNodeId pid m = "path:request:" ++ (pid ++ (":" ++ m)) := by
  rw [requestNodeId, ← String.append_assoc]
  rfl

theorem folder_ne_request (a b m : String) : folderNodeId a ≠ requestNodeId b m := by
  rw [folderNodeId_eq, requestNodeId_eq]
  exact append_ne_of_nth "path:folder:" "path:request:" 5 'f' 'r' (by decide) (by decide)
    (by decide) a (b ++ (":" ++ m))

theorem root_ne_pathId (x : String) : "root:collection" ≠ "path:" ++ x := by
  have h : ("root:collection" : String) = "root:collection" ++ "" :=
    (String.append_empty _).symm
  rw [h]
  exact append_ne_of_nth "root:collection" "path:" 0 'r' 'p' (by decide) (by decide)
    (by decide) "" x

theorem root_ne_folderNodeId (a : String) : "root:collection" ≠ folderNodeId a :=
  root_ne_pathId ("folder:" ++ a)

theorem root_ne_requestNodeId (b m : String) : "root:collection" ≠ requestNodeId b m :=
  root_ne_pathId ("request:" ++ (b ++ (":" ++ m)))

theorem folderNodeId_inj {a b : String} (h : folderNodeId a = folderNodeId b) : a = b := by
  rw [folderNodeId, folderNodeId] at h
  have h1 : ("folder:" ++ a : String) = "folder:" ++ b := strAppend_cancel_left h
  exact strAppend_cancel_left h1

theorem tagRequestId_inj_tag {A B p m : String}
    (h : tagRequestId A p m = tagRequestId B p m) : A = B := by
  rw [tagRequestId, tagRequestId] at h
  have h1 : (A ++ (":" ++ (p ++ (":" ++ m))) : String) = B ++ (":" ++ (p ++ (":" ++ m))) :=
    strAppend_cancel_left h
  exact strAppend_cancel_right h1

/-- Boolean character-list prefix test (structural, used for key-namespace
invariants). -/
def listPre : List Char → List Char → Bool
  | [], _ => true
  | _ :: _, [] => false
  | a :: as, b :: bs => if a = b then listPre as bs else false

/-- String prefix test via the underlying character lists. -/
def strStarts (p s : String) : Bool := listPre p.data s.data

theorem listPre_self_append : ∀ (l m : List Char), listPre l (l ++ m) = true := by
  intro l
  induction l with
  | nil => intro m; rfl
  | cons a l ih => intro m; simp [listPre, ih]

theorem strStarts_self_append (p x : String) : strStarts p (p ++ x) = true := by
  rw [strStarts, String.data_append]
  exact listPre_self_append _ _

theorem webhookRequestId_ne_folder (n m : String) :
    webhookRequestId n m ≠ webhookFolderId := by
  intro h
  rw [webhookRequestId,
    show webhookFolderId = "path~webhook:" ++ "folder" from rfl] at h
  have hx := strAppend_cancel_left h
  have hd := congrArg String.data hx
  rw [String.data_append, String.data_append] at hd
  have hc : ':' ∈ (n.data ++ ((":" : String).data ++ m.data)) := by
    refine List.mem_append_right _ ?_
    exact List.mem_append_left _ (by decide)
  rw [hd] at hc
  exact absurd hc (by decide)

/-! Graph-operation lemmas. -/

theorem setEdge_nodes (g : Graph) (p c : String) : (g.setEdge p c).nodes = g.nodes := rfl

theorem setEdge_getNode (g : Graph) (p c id : String) :
    (g.setEdge p c).getNode id = g.getNode id := rfl

theorem setEdge_hasNode (g : Graph) (p c id : String) :
    (g.setEdge p c).hasNode id = g.hasNode id := rfl

theorem setEdge_nodeWrites (g : Graph) (p c : String) :
    (g.setEdge p c).nodeWrites = g.nodeWrites := rfl

theorem setNode_edges (g : Graph) (id : String) (r : NodeRecord) :
    (g.setNode id r).edges = g.edges := rfl

theorem setNode_nodes (g : Graph) (id : String) (r : NodeRecord) :
    (g.setNode id r).nodes = setAssoc g.nodes id r := rfl

theorem setNode_nodeWrites (g : Graph) (id : String) (r : NodeRecord) :
    (g.setNode id r).nodeWrites = g.nodeWrites ++ [(id, r)] := rfl

theorem getNode_setNode_self (g : Graph) (id : String) (r : NodeRecord) :
    (g.setNode id r).getNode id = some r :=
  lookupA_setAssoc_self _ _ _

theorem getNode_setNode_ne (g : Graph) (id : String) (r : NodeRecord) (id' : String)
    (h : id' ≠ id) : (g.setNode id r).getNode id' = g.getNode id' :=
  lookupA_setAssoc_ne _ _ _ _ h

theorem hasNode_iff_mem (g : Graph) (id : String) :
    g.hasNode id = true ↔ id ∈ keys g.nodes := by
  simp only [Graph.hasNode, Graph.getNode]
  exact lookupA_isSome _ _

theorem not_mem_of_hasNode_false {g : Graph} {id : String}
    (h : g.hasNode id = false) : id ∉ keys g.nodes := by
  intro hm
  rw [(hasNode_iff_mem g id).mpr hm] at h
  exact absurd h (by decide)

theorem contains_iff {α : Type} [BEq α] [LawfulBEq α] (l : List α) (a : α) :
    l.contains a = true ↔ a ∈ l :=
  List.elem_iff

theorem mem_edges_setEdge {g : Graph} {e : String × String} (p c : String)
    (h : e ∈ g.edges) : e ∈ (g.setEdge p c).edges := by
  simp only [Graph.setEdge]
  split
  · exact h
  · exact List.mem_append_left _ h

theorem self_mem_setEdge (g : Graph) (p c : String) : (p, c) ∈ (g.setEdge p c).edges := by
  simp only [Graph.setEdge]
  split
  · next h => exact (contains_iff _ _).mp h
  · exact List.mem_append_right _ (List.mem_singleton.mpr rfl)

theorem edges_nodup_setEdge {g : Graph} (p c : String)
    (h : g.edges.Nodup) : (g.setEdge p c).edges.Nodup := by
  simp only [Graph.setEdge]
  split
  · exact h
  · next hcon =>
    refine List.nodup_append.mpr ⟨h, List.nodup_singleton _, ?_⟩
    rw [List.disjoint_singleton]
    intro hm
    exact hcon ((contains_iff _ _).mpr hm)

theorem setNode_nodes_fresh {g : Graph} {id : String} (r : NodeRecord)
    (h : g.hasNode id = false) : (g.setNode id r).nodes = g.nodes ++ [(id, r)] :=
  setAssoc_not_mem _ _ _ (not_mem_of_hasNode_false h)

theorem enumFrom_mem_bound {α : Type} :
    ∀ {l : List α} {i j : Nat} {a : α}, (j, a) ∈ enumFrom i l → i ≤ j ∧ j - i < l.length := by
  intro l
  induction l with
  | nil => intro i j a h; simp [enumFrom] at h
  | cons b l ih =>
    intro i j a h
    simp only [enumFrom, List.mem_cons] at h
    rcases h with h | h
    · have : j = i := congrArg Prod.fst h
      subst this
      simp
    · have := ih h
      constructor
      · omega
      · simp only [List.length_cons]
        omega

/-! Store invariants and their preservation by the graph operations. -/

/-- Every record stored at a `path:folder:` identifier is folder-typed. -/
def QFolder (t : Graph) : Prop :=
  ∀ X r, t.getNode (folderNodeId X) = some r → r.type = "folder"

/-- A folder-typed record is stored at `id`. -/
def FolderAt (t : Graph) (id : String) : Prop :=
  ∃ r, t.getNode id = some r ∧ r.type = "folder"

/-- A request-typed record is stored at `id`. -/
def ReqAt (t : Graph) (id : String) : Prop :=
  ∃ r, t.getNode id = some r ∧ r.type = "request"

/-- Relation between an earlier and a later node write: a later write may
repeat an earlier identifier only if it is a request-type write. -/
def relWrite (a b : String × NodeRecord) : Prop :=
  a.1 = b.1 → b.2.type = "request" ∨ b.2.type = "webhook~request"

/-- Store sanity: unique node keys, duplicate-free edge set, every logged
write targeted a key present in the store, and the write log satisfies the
creation-once discipline for non-request nodes. -/
def WriteInv (t : Graph) : Prop :=
  (keys t.nodes).Nodup ∧ t.edges.Nodup ∧
  List.Pairwise relWrite t.nodeWrites ∧
  (∀ e ∈ t.nodeWrites, e.1 ∈ keys t.nodes)

/-- All node keys created by the base strategies live in the
`root:collection` / `path:` namespaces. -/
def BaseKeys (t : Graph) : Prop :=
  ∀ k ∈ keys t.nodes, k = "root:collection" ∨ strStarts "path:" k = true

theorem writeInv_setNode_request {t : Graph} {id : String} {r : NodeRecord}
    (h : WriteInv t) (hr : r.type = "request" ∨ r.type = "webhook~request") :
    WriteInv (t.setNode id r) := by
  obtain ⟨h1, h2, h3, h4⟩ := h
  refine ⟨keys_nodup_setAssoc _ _ _ h1, h2, ?_, ?_⟩
  · rw [setNode_nodeWrites, List.pairwise_append]
    exact ⟨h3, List.pairwise_singleton _ _, fun a _ b hb => by
      rw [List.mem_singleton.mp hb]
      exact fun _ => hr⟩
  · intro e he
    rw [setNode_nodeWrites] at he
    rcases List.mem_append.mp he with he | he
    · exact (mem_keys_setAssoc _ _ _ _).mpr (Or.inr (h4 e he))
    · rw [List.mem_singleton.mp he]
      exact (mem_keys_setAssoc _ _ _ _).mpr (Or.inl rfl)

theorem writeInv_setNode_fresh {t : Graph} {id : String} {r : NodeRecord}
    (h : WriteInv t) (hf : t.hasNode id = false) : WriteInv (t.setNode id r) := by
  obtain ⟨h1, h2, h3, h4⟩ := h
  have hnm := not_mem_of_hasNode_false hf
  refine ⟨keys_nodup_setAssoc _ _ _ h1, h2, ?_, ?_⟩
  · rw [setNode_nodeWrites, List.pairwise_append]
    refine ⟨h3, List.pairwise_singleton _ _, fun a ha b hb => ?_⟩
    rw [List.mem_singleton.mp hb]
    intro hab
    have : id ∈ keys t.nodes := by
      have := h4 a ha
      rwa [hab] at this
    exact absurd this hnm
  · intro e he
    rw [setNode_nodeWrites] at he
    rcases List.mem_append.mp he with he | he
    · exact (mem_keys_setAssoc _ _ _ _).mpr (Or.inr (h4 e he))
    · rw [List.mem_singleton.mp he]
      exact (mem_keys_setAssoc _ _ _ _).mpr (Or.inl rfl)

theorem writeInv_setEdge {t : Graph} (p c : String) (h : WriteInv t) :
    WriteInv (t.setEdge p c) := by
  obtain ⟨h1, h2, h3, h4⟩ := h
  exact ⟨h1, edges_nodup_setEdge p c h2, h3, h4⟩

theorem baseKeys_setNode {t : Graph} {id : String} (r : NodeRecord) (h : BaseKeys t)
    (hid : id = "root:collection" ∨ strStarts "path:" id = true) :
    BaseKeys (t.setNode id r) := by
  intro k hk
  rw [setNode_nodes] at hk
  rcases (mem_keys_setAssoc _ _ _ _).mp hk with hk | hk
  · exact hk ▸ hid
  · exact h k hk

theorem baseKeys_setEdge {t : Graph} (p c : String) (h : BaseKeys t) :
    BaseKeys (t.setEdge p c) := h

theorem qfolder_setNode_folder {t : Graph} {id : String} {r : NodeRecord}
    (h : QFolder t) (hr : r.type = "folder") : QFolder (t.setNode id r) := by
  intro X r' hX
  by_cases he : folderNodeId X = id
  · rw [he, getNode_setNode_self] at hX
    rw [← Option.some.inj hX]
    exact hr
  · rw [getNode_setNode_ne _ _ _ _ he] at hX
    exact h X r' hX

theorem qfolder_setNode_nonfolder {t : Graph} {id : String} {r : NodeRecord}
    (h : QFolder t) (hid : ∀ X, id ≠ folderNodeId X) : QFolder (t.setNode id r) := by
  intro X r' hX
  rw [getNode_setNode_ne _ _ _ _ (fun he => absurd he.symm (hid X))] at hX
  exact h X r' hX

theorem qfolder_setEdge {t : Graph} (p c : String) (h : QFolder t) :
    QFolder (t.setEdge p c) := h

theorem folderAt_setNode_folder {t : Graph} {id fid : String} {r : NodeRecord}
    (h : FolderAt t fid) (hr : r.type = "folder") : FolderAt (t.setNode id r) fid := by
  by_cases he : fid = id
  · exact ⟨r, by rw [he, getNode_setNode_self], hr⟩
  · obtain ⟨r', hr', ht'⟩ := h
    exact ⟨r', by rw [getNode_setNode_ne _ _ _ _ he]; exact hr', ht'⟩

theorem folderAt_setNode_ne {t : Graph} {id fid : String} {r : NodeRecord}
    (h : FolderAt t fid) (hne : fid ≠ id) : FolderAt (t.setNode id r) fid := by
  obtain ⟨r', hr', ht'⟩ := h
  exact ⟨r', by rw [getNode_setNode_ne _ _ _ _ hne]; exact hr', ht'⟩

theorem folderAt_setEdge {t : Graph} {fid : String} (p c : String)
    (h : FolderAt t fid) : FolderAt (t.setEdge p c) fid := h

theorem reqAt_setNode_request {t : Graph} {id rid : String} {r : NodeRecord}
    (h : ReqAt t rid) (hr : r.type = "request") : ReqAt (t.setNode id r) rid := by
  by_cases he : rid = id
  · exact ⟨r, by rw [he, getNode_setNode_self], hr⟩
  · obtain ⟨r', hr', ht'⟩ := h
    exact ⟨r', by rw [getNode_setNode_ne _ _ _ _ he]; exact hr', ht'⟩

theorem reqAt_setNode_ne {t : Graph} {id rid : String} {r : NodeRecord}
    (h : ReqAt t rid) (hne : rid ≠ id) : ReqAt (t.setNode id r) rid := by
  obtain ⟨r', hr', ht'⟩ := h
  exact ⟨r', by rw [getNode_setNode_ne _ _ _ _ hne]; exact hr', ht'⟩

theorem reqAt_setEdge {t : Graph} {rid : String} (p c : String)
    (h : ReqAt t rid) : ReqAt (t.setEdge p c) rid := h

theorem reqAt_hasNode {t : Graph} {rid : String} (h : ReqAt t rid) :
    t.hasNode rid = true := by
  obtain ⟨r, hr, _⟩ := h
  simp [Graph.hasNode, hr]

theorem folderAt_hasNode {t : Graph} {fid : String} (h : FolderAt t fid) :
    t.hasNode fid = true := by
  obtain ⟨r, hr, _⟩ := h
  simp [Graph.hasNode, hr]

/-- Combined invariant carried through the path strategy. -/
def PathInv (t : Graph) : Prop := QFolder t ∧ WriteInv t ∧ BaseKeys t

theorem pathInv_setEdge {t : Graph} (p c : String) (h : PathInv t) :
    PathInv (t.setEdge p c) :=
  ⟨qfolder_setEdge p c h.1, writeInv_setEdge p c h.2.1, baseKeys_setEdge p c h.2.2⟩

theorem pathInv_setNode_folder_fresh {t : Graph} {X seg : String} (h : PathInv t)
    (hf : t.hasNode (folderNodeId X) = false) :
    PathInv (t.setNode (folderNodeId X) (pathFolderRec seg X)) := by
  refine ⟨qfolder_setNode_folder h.1 rfl, writeInv_setNode_fresh h.2.1 hf, ?_⟩
  refine baseKeys_setNode _ h.2.2 (Or.inr ?_)
  rw [folderNodeId]
  exact strStarts_self_append _ _

theorem pathInv_setNode_request {t : Graph} {pid m cp : String} (h : PathInv t) :
    PathInv (t.setNode (requestNodeId pid m) (pathRequestRec cp m pid)) := by
  refine ⟨?_, writeInv_setNode_request h.2.1 (Or.inl rfl), ?_⟩
  · exact qfolder_setNode_nonfolder h.1 (fun X => (folder_ne_request X pid m).symm)
  · refine baseKeys_setNode _ h.2.2 (Or.inr ?_)
    rw [requestNodeId]
    exact strStarts_self_append _ _

/-- Combined invariant carried through the tag strategy. -/
def TagInv (t : Graph) : Prop := WriteInv t ∧ BaseKeys t

theorem tagInv_setEdge {t : Graph} (p c : String) (h : TagInv t) :
    TagInv (t.setEdge p c) :=
  ⟨writeInv_setEdge p c h.1, baseKeys_setEdge p c h.2⟩

theorem tagInv_setNode_folder_fresh {t : Graph} {tag pm : String} {d : Option String}
    (h : TagInv t) (hf : t.hasNode (tagFolderId tag) = false) :
    TagInv (t.setNode (tagFolderId tag) (tagFolderRec tag pm d)) := by
  refine ⟨writeInv_setNode_fresh h.1 hf, ?_⟩
  refine baseKeys_setNode _ h.2 (Or.inr ?_)
  rw [tagFolderId]
  exact strStarts_self_append _ _

theorem tagInv_setNode_tagRequest {t : Graph} {tag p m : String} (h : TagInv t) :
    TagInv (t.setNode (tagRequestId tag p m) (tagRequestRec tag p m)) := by
  refine ⟨writeInv_setNode_request h.1 (Or.inl rfl), ?_⟩
  refine baseKeys_setNode _ h.2 (Or.inr ?_)
  rw [tagRequestId]
  exact strStarts_self_append _ _

theorem tagInv_setNode_noTagRequest {t : Graph} {p m : String} (h : TagInv t) :
    TagInv (t.setNode (noTagRequestId p m) (noTagRequestRec p m)) := by
  refine ⟨writeInv_setNode_request h.1 (Or.inl rfl), ?_⟩
  refine baseKeys_setNode _ h.2 (Or.inr ?_)
  rw [noTagRequestId]
  exact strStarts_self_append _ _

/-! Preservation of the invariants by the path-strategy steps. -/

theorem pathInv_singleStep {incl : Bool} {cp seg : String} {t : Graph}
    {entry : String × Operation} (h : PathInv t) :
    PathInv (singleStep incl cp seg t entry) := by
  unfold singleStep
  split
  · exact h
  split
  · exact h
  refine pathInv_setEdge _ _ (pathInv_setNode_request ?_)
  split
  · exact h
  · next hf =>
    exact pathInv_setEdge _ _
      (pathInv_setNode_folder_fresh h (Bool.not_eq_true _ ▸ hf))

theorem pathInv_finalStep {incl : Bool} {cp : String} {s : List String} {idx : Nat}
    {seg : String} {t : Graph} {entry : String × Operation} (h : PathInv t) :
    PathInv (finalStep incl cp s idx seg t entry) := by
  unfold finalStep
  split
  · exact h
  split
  · exact h
  refine pathInv_setEdge _ _ (pathInv_setNode_request ?_)
  split
  · exact h
  · next hf =>
    exact pathInv_setEdge _ _
      (pathInv_setNode_folder_fresh h (Bool.not_eq_true _ ▸ hf))

theorem pathInv_ensureNode_folder {t : Graph} {X seg : String} (h : PathInv t) :
    PathInv (ensureNode t (folderNodeId X) (pathFolderRec seg X)) := by
  unfold ensureNode
  split
  · exact h
  · next hf =>
    exact pathInv_setNode_folder_fresh h (Bool.not_eq_true _ ▸ hf)

theorem pathInv_ensureEdge {t : Graph} (p c : String) (h : PathInv t) :
    PathInv (ensureEdge t p c) := by
  unfold ensureEdge
  split
  · exact h
  · exact pathInv_setEdge _ _ h

theorem pathInv_segStep {o : OpenAPI} {incl : Bool} {cp : String} {s : List String}
    {t : Graph} {idxSeg : Nat × String} (h : PathInv t) :
    PathInv (segStep o incl cp s t idxSeg) := by
  unfold segStep
  split
  · exact foldl_pres _ t (fun t' e _ ht' => pathInv_finalStep ht') h
  · exact pathInv_ensureEdge _ _ (pathInv_ensureNode_folder h)

theorem pathInv_processPath {o : OpenAPI} {incl : Bool} {cp : String} {t : Graph}
    (h : PathInv t) : PathInv (processPath o incl t cp) := by
  unfold processPath
  split
  · exact foldl_pres _ t (fun t' e _ ht' => pathInv_singleStep ht') h
  · exact foldl_pres _ t (fun t' e _ ht' => pathInv_segStep ht') h

/-- Folder presence plus one edge, the property established for C1. -/
def PE (X : String) (e : String × String) (t : Graph) : Prop :=
  FolderAt t (folderNodeId X) ∧ e ∈ t.edges

theorem pe_setEdge {X : String} {e : String × String} {t : Graph} (p c : String)
    (h : PE X e t) : PE X e (t.setEdge p c) :=
  ⟨folderAt_setEdge p c h.1, mem_edges_setEdge p c h.2⟩

theorem pe_singleStep {incl : Bool} {cp seg : String} {X : String} {e : String × String}
    {t : Graph} {entry : String × Operation} (h : PE X e t) :
    PE X e (singleStep incl cp seg t entry) := by
  unfold singleStep
  split
  · exact h
  split
  · exact h
  have h1 : PE X e (if t.hasNode (folderNodeId seg) = true then t
      else (t.setNode (folderNodeId seg) (pathFolderRec seg seg)).setEdge
        "root:collection" (folderNodeId seg)) := by
    split
    · exact h
    · exact pe_setEdge _ _ ⟨folderAt_setNode_folder h.1 rfl, h.2⟩
  exact pe_setEdge _ _
    ⟨folderAt_setNode_ne h1.1 (folder_ne_request X seg entry.1), h1.2⟩

theorem pe_finalStep {incl : Bool} {cp : String} {s : List String} {idx : Nat}
    {seg : String} {X : String} {e : String × String} {t : Graph}
    {entry : String × Operation} (h : PE X e t) :
    PE X e (finalStep incl cp s idx seg t entry) := by
  unfold finalStep
  split
  · exact h
  split
  · exact h
  have h1 : PE X e (if t.hasNode (folderNodeId (joinSegs (s.take (idx + 1)))) = true then t
      else (t.setNode (folderNodeId (joinSegs (s.take (idx + 1))))
          (pathFolderRec seg (joinSegs (s.take (idx + 1))))).setEdge
        (if idx = 0 then "root:collection" else folderNodeId (joinSegs (s.take idx)))
        (folderNodeId (joinSegs (s.take (idx + 1))))) := by
    split
    · exact h
    · exact pe_setEdge _ _ ⟨folderAt_setNode_folder h.1 rfl, h.2⟩
  exact pe_setEdge _ _
    ⟨folderAt_setNode_ne h1.1 (folder_ne_request X _ entry.1), h1.2⟩

theorem pe_ensureNode_folder {X' seg : String} {X : String} {e : String × String}
    {t : Graph} (h : PE X e t) :
    PE X e (ensureNode t (folderNodeId X') (pathFolderRec seg X')) := by
  unfold ensureNode
  split
  · exact h
  · exact ⟨folderAt_setNode_folder h.1 rfl, h.2⟩

theorem pe_ensureEdge {X : String} {e : String × String} {t : Graph} (p c : String)
    (h : PE X e t) : PE X e (ensureEdge t p c) := by
  unfold ensureEdge
  split
  · exact h
  · exact pe_setEdge _ _ h

theorem pe_segStep {o : OpenAPI} {incl : Bool} {cp : String} {s : List String}
    {X : String} {e : String × String} {t : Graph} {idxSeg : Nat × String}
    (h : PE X e t) : PE X e (segStep o incl cp s t idxSeg) := by
  unfold segStep
  split
  · exact foldl_pres _ t (fun t' e' _ ht' => pe_finalStep ht') h
  · exact pe_ensureEdge _ _ (pe_ensureNode_folder h)

theorem pe_processPath {o : OpenAPI} {incl : Bool} {cp : String} {X : String}
    {e : String × String} {t : Graph} (h : PE X e t) :
    PE X e (processPath o incl t cp) := by
  unfold processPath
  split
  · exact foldl_pres _ t (fun t' e' _ ht' => pe_singleStep ht') h
  · exact foldl_pres _ t (fun t' e' _ ht' => pe_segStep ht') h

theorem folderAt_ensureNode_self {t : Graph} {X seg : String} (hq : QFolder t) :
    FolderAt (ensureNode t (folderNodeId X) (pathFolderRec seg X)) (folderNodeId X) := by
  unfold ensureNode
  split
  · next hn =>
    obtain ⟨r, hr⟩ := Option.isSome_iff_exists.mp hn
    exact ⟨r, hr, hq _ r hr⟩
  · exact ⟨pathFolderRec seg X, getNode_setNode_self _ _ _, rfl⟩

theorem mem_ensureEdge_self (t : Graph) (p c : String) : (p, c) ∈ (ensureEdge t p c).edges := by
  unfold ensureEdge
  split
  · next he => exact (contains_iff _ _).mp he
  · exact self_mem_setEdge _ _ _

theorem folderAt_ensureEdge {t : Graph} {fid : String} (p c : String)
    (h : FolderAt t fid) : FolderAt (ensureEdge t p c) fid := by
  unfold ensureEdge
  split
  · exact h
  · exact folderAt_setEdge _ _ h

/-- A non-final `segStep` establishes the intermediate folder and its edge. -/
theorem segStep_estab {o : OpenAPI} {incl : Bool} {cp : String} {s : List String}
    {k : Nat} {seg : String} (hk1 : 1 ≤ k) (hk2 : k < s.length)
    {t : Graph} (hq : QFolder t) :
    PE (joinSegs (s.take k))
      ((if k - 1 = 0 then "root:collection" else folderNodeId (joinSegs (s.take (k - 1)))),
        folderNodeId (joinSegs (s.take k)))
      (segStep o incl cp s t (k - 1, seg)) := by
  have hne : ¬((k - 1, seg).1 + 1 = s.length) := by simp only; omega
  have hk : k - 1 + 1 = k := by omega
  unfold segStep
  rw [if_neg hne]
  simp only [hk]
  exact ⟨folderAt_ensureEdge _ _ (folderAt_ensureNode_self hq), mem_ensureEdge_self _ _ _⟩

/-- A duplicate-free list counts each of its members exactly once. -/
theorem count_one_of_nodup {α : Type} [BEq α] [LawfulBEq α] :
    ∀ {l : List α} {a : α}, l.Nodup → a ∈ l → l.count a = 1 := by
  intro l
  induction l with
  | nil => intro a _ hm; exact absurd hm (List.not_mem_nil a)
  | cons b l ih =>
    intro a hn hm
    have hn' := List.nodup_cons.mp hn
    rw [List.count_cons]
    rcases List.mem_cons.mp hm with h | h
    · subst h
      rw [List.count_eq_zero.mpr hn'.1, if_pos (beq_self_eq_true a)]
    · have hba : ¬(b == a) = true := by
        intro hba
        exact hn'.1 (eq_of_beq hba ▸ h)
      rw [ih hn'.2 h, if_neg hba]

/-- The invariants hold for the root-only tree that every strategy starts
from. -/
theorem pathInv_init : PathInv (Graph.setNode {} "root:collection" collectionRec) := by
  refine ⟨?_, ⟨?_, ?_, ?_, ?_⟩, ?_⟩
  · intro X r h
    rw [getNode_setNode_ne _ _ _ _ (Ne.symm (root_ne_folderNodeId X))] at h
    exact Option.noConfusion h
  · decide
  · exact List.nodup_nil
  · exact List.pairwise_singleton _ _
  · intro e he
    rw [List.mem_singleton.mp he]
    decide
  · intro k hk
    left
    rcases List.mem_singleton.mp hk with h
    exact h

/-- Processing a multi-segment path establishes the folder and parent edge of
every proper prefix. -/
theorem processPath_estab {o : OpenAPI} {incl : Bool} {cp : String} {k : Nat}
    (hk1 : 1 ≤ k) (hk2 : k < (pathSplitOf cp).length) {t : Graph} (h : PathInv t) :
    PE (joinSegs ((pathSplitOf cp).take k))
      ((if k - 1 = 0 then "root:collection"
        else folderNodeId (joinSegs ((pathSplitOf cp).take (k - 1)))),
        folderNodeId (joinSegs ((pathSplitOf cp).take k)))
      (processPath o incl t cp) := by
  have hlen : ¬((pathSplitOf cp).length = 1) := by omega
  unfold processPath
  rw [if_neg hlen]
  have hkm : k - 1 < (pathSplitOf cp).length := by omega
  have hmem : (k - 1, (pathSplitOf cp).get ⟨k - 1, hkm⟩) ∈ enumFrom 0 (pathSplitOf cp) := by
    have := enumFrom_mem_of (pathSplitOf cp) 0 (k - 1) hkm
    simpa using this
  exact foldl_estab _ t _ hmem h
    (fun t' b _ hq => pathInv_segStep hq)
    (fun t' hq => segStep_estab hk1 hk2 hq.1)
    (fun t' b _ hp => pe_segStep hp)

/-- The path strategy preserves `PathInv` from the root-only tree. -/
theorem pathsV2_pathInv (openapi : OpenAPI) (incl : Bool) :
    PathInv (_generateTreeFromPathsV2 openapi incl) := by
  unfold _generateTreeFromPathsV2
  split
  · exact pathInv_init
  · exact foldl_pres _ _ (fun t b _ hq => pathInv_processPath hq) pathInv_init

/-- C1.  Path-segmentation folder deduplication: for any specification, any
declared path and any proper non-empty segment prefix of it, the final tree
holds exactly one folder node under that prefix identifier, reached by
exactly one edge from its parent (root for a first-level prefix); later paths
sharing the prefix reuse this node and edge instead of duplicating them. -/
theorem c1_path_folder_dedup (openapi : OpenAPI) (incl : Bool) (p : String) (k : Nat)
    (hp : p ∈ openapi.paths.map (fun e => e.1))
    (hk1 : 1 ≤ k) (hk2 : k < (pathSplitOf p).length) :
    FolderAt (_generateTreeFromPathsV2 openapi incl)
      (folderNodeId (joinSegs ((pathSplitOf p).take k))) ∧
    (keys (_generateTreeFromPathsV2 openapi incl).nodes).count
      (folderNodeId (joinSegs ((pathSplitOf p).take k))) = 1 ∧
    ((if k = 1 then "root:collection"
      else folderNodeId (joinSegs ((pathSplitOf p).take (k - 1)))),
      folderNodeId (joinSegs ((pathSplitOf p).take k)))
      ∈ (_generateTreeFromPathsV2 openapi incl).edges ∧
    (_generateTreeFromPathsV2 openapi incl).edges.count
      ((if k = 1 then "root:collection"
        else folderNodeId (joinSegs ((pathSplitOf p).take (k - 1)))),
        folderNodeId (joinSegs ((pathSplitOf p).take k))) = 1 := by
  have hpar : (if k = 1 then "root:collection"
        else folderNodeId (joinSegs ((pathSplitOf p).take (k - 1))))
      = (if k - 1 = 0 then "root:collection"
        else folderNodeId (joinSegs ((pathSplitOf p).take (k - 1)))) := by
    by_cases h1 : k = 1
    · rw [if_pos h1, if_pos (by omega)]
    · rw [if_neg h1, if_neg (by omega)]
  have hemp : ¬((openapi.paths.map (fun e => e.1)).isEmpty = true) := by
    intro hem
    rw [List.isEmpty_iff.mp hem] at hp
    exact List.not_mem_nil p hp
  have hinv : PathInv (_generateTreeFromPathsV2 openapi incl) := pathsV2_pathInv openapi incl
  have hpe : PE (joinSegs ((pathSplitOf p).take k))
      ((if k - 1 = 0 then "root:collection"
        else folderNodeId (joinSegs ((pathSplitOf p).take (k - 1)))),
        folderNodeId (joinSegs ((pathSplitOf p).take k)))
      (_generateTreeFromPathsV2 openapi incl) := by
    unfold _generateTreeFromPathsV2
    rw [if_neg hemp]
    exact foldl_estab _ _ p hp pathInv_init
      (fun t b _ hq => pathInv_processPath hq)
      (fun t hq => processPath_estab hk1 hk2 hq)
      (fun t b _ hpp => pe_processPath hpp)
  obtain ⟨hfold, hedge⟩ := hpe
  have hmemk : folderNodeId (joinSegs ((pathSplitOf p).take k))
      ∈ keys (_generateTreeFromPathsV2 openapi incl).nodes := by
    obtain ⟨r, hr, _⟩ := hfold
    exact (lookupA_isSome _ _).mp (by simp [Graph.getNode] at hr ⊢; simp [hr])
  refine ⟨hfold, ?_, ?_, ?_⟩
  · exact count_one_of_nodup hinv.2.1.1 hmemk
  · rw [hpar]; exact hedge
  · rw [hpar]; exact count_one_of_nodup hinv.2.1.2.1 hedge

/-- Witness for C1 at the spec `/user`, `/user/{id}`. -/
theorem c1_witness :
    ("/user/{id}" ∈ (OpenAPI.mk [("/user", [("get", {})]), ("/user/{id}", [("get", {})])]
        [] []).paths.map (fun e => e.1) ∧ 1 ≤ 1 ∧ 1 < (pathSplitOf "/user/{id}").length) ∧
    (FolderAt (_generateTreeFromPathsV2
        (OpenAPI.mk [("/user", [("get", {})]), ("/user/{id}", [("get", {})])] [] []) false)
      (folderNodeId (joinSegs ((pathSplitOf "/user/{id}").take 1))) ∧
    (keys (_generateTreeFromPathsV2
        (OpenAPI.mk [("/user", [("get", {})]), ("/user/{id}", [("get", {})])] [] []) false).nodes).count
      (folderNodeId (joinSegs ((pathSplitOf "/user/{id}").take 1))) = 1 ∧
    ((if 1 = 1 then "root:collection"
      else folderNodeId (joinSegs ((pathSplitOf "/user/{id}").take (1 - 1)))),
      folderNodeId (joinSegs ((pathSplitOf "/user/{id}").take 1)))
      ∈ (_generateTreeFromPathsV2
        (OpenAPI.mk [("/user", [("get", {})]), ("/user/{id}", [("get", {})])] [] []) false).edges ∧
    (_generateTreeFromPathsV2
        (OpenAPI.mk [("/user", [("get", {})]), ("/user/{id}", [("get", {})])] [] []) false).edges.count
      ((if 1 = 1 then "root:collection"
        else folderNodeId (joinSegs ((pathSplitOf "/user/{id}").take (1 - 1)))),
        folderNodeId (joinSegs ((pathSplitOf "/user/{id}").take 1))) = 1) :=
  ⟨⟨by decide, by decide, by decide⟩,
    c1_path_folder_dedup
      (OpenAPI.mk [("/user", [("get", {})]), ("/user/{id}", [("get", {})])] [] [])
      false "/user/{id}" 1 (by decide) (by decide) (by decide)⟩

/-! Tag-strategy step lemmas. -/

theorem tagInv_tagFolderStep {t : Graph} {entry : String × Option String}
    (h : TagInv t) : TagInv (tagFolderStep t entry) := by
  unfold tagFolderStep
  split
  · exact h
  · next hf =>
    exact tagInv_setEdge _ _
      (tagInv_setNode_folder_fresh h (Bool.not_eq_true _ ▸ hf))

theorem tagInv_tagOpTagStep {tdm : List (String × Option String)} {p m : String}
    {t : Graph} {tag : String} (h : TagInv t) : TagInv (tagOpTagStep tdm p m t tag) := by
  refine tagInv_setEdge _ _ ?_
  split
  · exact tagInv_setNode_tagRequest h
  · next hf =>
    exact tagInv_setEdge _ _
      (tagInv_setNode_folder_fresh (tagInv_setNode_tagRequest h) (Bool.not_eq_true _ ▸ hf))

theorem tagInv_tagMethodStep {tdm : List (String × Option String)} {incl : Bool}
    {p : String} {t : Graph} {entry : String × Operation} (h : TagInv t) :
    TagInv (tagMethodStep tdm incl p t entry) := by
  unfold tagMethodStep
  split
  · exact h
  split
  · exact h
  split
  · exact foldl_pres _ t (fun t' tg _ ht' => tagInv_tagOpTagStep ht') h
  · exact tagInv_setEdge _ _ (tagInv_setNode_noTagRequest h)

theorem tagInv_tagPathStep {tdm : List (String × Option String)} {incl : Bool}
    {t : Graph} {entry : String × PathItem} (h : TagInv t) :
    TagInv (tagPathStep tdm incl t entry) :=
  foldl_pres _ t (fun t' e _ ht' => tagInv_tagMethodStep ht') h

/-- The tag strategy preserves `TagInv` from the root-only tree. -/
theorem tags_tagInv (openapi : OpenAPI) (incl : Bool) :
    TagInv (_generateTreeFromTags openapi incl) := by
  unfold _generateTreeFromTags
  refine foldl_pres _ _ (fun t e _ ht => tagInv_tagPathStep ht) ?_
  exact foldl_pres _ _ (fun t e _ ht => tagInv_tagFolderStep ht) pathInv_init.2

/-- Request presence plus one edge, the property established for C2. -/
def RP (rid : String) (e : String × String) (t : Graph) : Prop :=
  ReqAt t rid ∧ e ∈ t.edges

theorem rp_setEdge {rid : String} {e : String × String} {t : Graph} (p c : String)
    (h : RP rid e t) : RP rid e (t.setEdge p c) :=
  ⟨reqAt_setEdge p c h.1, mem_edges_setEdge p c h.2⟩

theorem rp_tagOpTagStep {tdm : List (String × Option String)} {p m : String}
    {rid : String} {e : String × String} {t : Graph} {tag : String} (h : RP rid e t) :
    RP rid e (tagOpTagStep tdm p m t tag) := by
  refine rp_setEdge _ _ ?_
  have h1 : RP rid e (t.setNode (tagRequestId tag p m) (tagRequestRec tag p m)) :=
    ⟨reqAt_setNode_request h.1 rfl, h.2⟩
  split
  · exact h1
  · next hf =>
    have hne : rid ≠ tagFolderId tag := by
      intro he
      rw [← he, reqAt_hasNode h1.1] at hf
      exact hf rfl
    exact rp_setEdge _ _ ⟨reqAt_setNode_ne h1.1 hne, h1.2⟩

theorem rp_tagMethodStep {tdm : List (String × Option String)} {incl : Bool}
    {p : String} {rid : String} {e : String × String} {t : Graph}
    {entry : String × Operation} (h : RP rid e t) :
    RP rid e (tagMethodStep tdm incl p t entry) := by
  unfold tagMethodStep
  split
  · exact h
  split
  · exact h
  split
  · exact foldl_pres _ t (fun t' tg _ ht' => rp_tagOpTagStep ht') h
  · exact rp_setEdge _ _ ⟨reqAt_setNode_request h.1 rfl, h.2⟩

theorem rp_tagPathStep {tdm : List (String × Option String)} {incl : Bool}
    {rid : String} {e : String × String} {t : Graph} {entry : String × PathItem}
    (h : RP rid e t) : RP rid e (tagPathStep tdm incl t entry) :=
  foldl_pres _ t (fun t' e' _ ht' => rp_tagMethodStep ht') h

/-- Processing a tag of an operation establishes its request node and edge. -/
theorem tagOpTagStep_estab (tdm : List (String × Option String)) (p m : String)
    (tag : String) (t : Graph) :
    RP (tagRequestId tag p m) (tagFolderId tag, tagRequestId tag p m)
      (tagOpTagStep tdm p m t tag) := by
  have h1 : ReqAt (t.setNode (tagRequestId tag p m) (tagRequestRec tag p m))
      (tagRequestId tag p m) :=
    ⟨tagRequestRec tag p m, getNode_setNode_self _ _ _, rfl⟩
  unfold tagOpTagStep
  refine ⟨reqAt_setEdge _ _ ?_, self_mem_setEdge _ _ _⟩
  split
  · exact h1
  · next hf =>
    have hne : tagRequestId tag p m ≠ tagFolderId tag := by
      intro he
      rw [← he, reqAt_hasNode h1] at hf
      exact hf rfl
    exact reqAt_setEdge _ _ (reqAt_setNode_ne h1 hne)

/-- A kept, allowed, tagged operation establishes its request node and edge. -/
theorem tagMethodStep_estab {tdm : List (String × Option String)} {incl : Bool}
    {p m : String} {op : Operation} {tag : String}
    (h3 : allowedMethod m = true) (h4 : incl = true ∨ op.deprecated = false)
    (h5 : tag ∈ op.tags) (t : Graph) :
    RP (tagRequestId tag p m) (tagFolderId tag, tagRequestId tag p m)
      (tagMethodStep tdm incl p t (m, op)) := by
  have hc1 : ¬(allowedMethod (m, op).1 = false) := by
    simp only
    rw [h3]
    exact fun hh => Bool.noConfusion hh
  have hc2 : ¬((!incl && (m, op).2.deprecated) = true) := by
    rcases h4 with h | h <;> simp [h]
  have hc3 : (m, op).2.tags.isEmpty = false := by
    simp only
    cases hop : op.tags with
    | nil => rw [hop] at h5; exact absurd h5 (List.not_mem_nil tag)
    | cons a l => rfl
  unfold tagMethodStep
  rw [if_neg hc1, if_neg hc2, if_pos hc3]
  exact foldl_estab_simple _ t tag h5
    (fun t' => tagOpTagStep_estab tdm p m tag t')
    (fun t' b _ hp => rp_tagOpTagStep hp)

/-- A path entry containing such an operation establishes its request node. -/
theorem tagPathStep_estab {tdm : List (String × Option String)} {incl : Bool}
    {p m : String} {item : PathItem} {op : Operation} {tag : String}
    (h2 : (m, op) ∈ item) (h3 : allowedMethod m = true)
    (h4 : incl = true ∨ op.deprecated = false) (h5 : tag ∈ op.tags) (t : Graph) :
    RP (tagRequestId tag p m) (tagFolderId tag, tagRequestId tag p m)
      (tagPathStep tdm incl t (p, item)) := by
  unfold tagPathStep
  exact foldl_estab_simple _ t (m, op) h2
    (fun t' => tagMethodStep_estab h3 h4 h5 t')
    (fun t' b _ hp => rp_tagMethodStep hp)

/-- C2.  Tag-strategy fan-out duplication: an allowed, kept operation with two
distinct tags yields two request nodes with distinct identifiers, one under
each tag folder, with no sharing between them. -/
theorem c2_tag_fanout (openapi : OpenAPI) (incl : Bool) (p : String) (item : PathItem)
    (m : String) (op : Operation) (A B : String)
    (h1 : (p, item) ∈ openapi.paths) (h2 : (m, op) ∈ item)
    (h3 : allowedMethod m = true) (h4 : incl = true ∨ op.deprecated = false)
    (h5 : A ∈ op.tags) (h6 : B ∈ op.tags) (h7 : A ≠ B) :
    tagRequestId A p m ≠ tagRequestId B p m ∧
    ReqAt (_generateTreeFromTags openapi incl) (tagRequestId A p m) ∧
    ReqAt (_generateTreeFromTags openapi incl) (tagRequestId B p m) ∧
    (tagFolderId A, tagRequestId A p m) ∈ (_generateTreeFromTags openapi incl).edges ∧
    (tagFolderId B, tagRequestId B p m) ∈ (_generateTreeFromTags openapi incl).edges := by
  refine ⟨fun he => h7 (tagRequestId_inj_tag he), ?_⟩
  have estA : RP (tagRequestId A p m) (tagFolderId A, tagRequestId A p m)
      (_generateTreeFromTags openapi incl) := by
    unfold _generateTreeFromTags
    exact foldl_estab_simple _ _ (p, item) h1
      (fun t => tagPathStep_estab h2 h3 h4 h5 t)
      (fun t b _ hp => rp_tagPathStep hp)
  have estB : RP (tagRequestId B p m) (tagFolderId B, tagRequestId B p m)
      (_generateTreeFromTags openapi incl) := by
    unfold _generateTreeFromTags
    exact foldl_estab_simple _ _ (p, item) h1
      (fun t => tagPathStep_estab h2 h3 h4 h6 t)
      (fun t b _ hp => rp_tagPathStep hp)
  exact ⟨estA.1, estB.1, estA.2, estB.2⟩

/-- Witness for C2 at the spec `/pets` `get` with tags `Pet`, `Store`. -/
theorem c2_witness :
    ((("/pets", [("get", Operation.mk false ["Pet", "Store"])])
        ∈ (OpenAPI.mk [("/pets", [("get", Operation.mk false ["Pet", "Store"])])] [] []).paths) ∧
      ("get", Operation.mk false ["Pet", "Store"]) ∈
        [("get", Operation.mk false ["Pet", "Store"])] ∧
      allowedMethod "get" = true ∧
      ("Pet" : String) ∈ ["Pet", "Store"] ∧ ("Store" : String) ∈ ["Pet", "Store"] ∧
      ("Pet" : String) ≠ "Store") ∧
    (tagRequestId "Pet" "/pets" "get" ≠ tagRequestId "Store" "/pets" "get" ∧
      ReqAt (_generateTreeFromTags
          (OpenAPI.mk [("/pets", [("get", Operation.mk false ["Pet", "Store"])])] [] []) false)
        (tagRequestId "Pet" "/pets" "get") ∧
      ReqAt (_generateTreeFromTags
          (OpenAPI.mk [("/pets", [("get", Operation.mk false ["Pet", "Store"])])] [] []) false)
        (tagRequestId "Store" "/pets" "get") ∧
      (tagFolderId "Pet", tagRequestId "Pet" "/pets" "get")
        ∈ (_generateTreeFromTags
          (OpenAPI.mk [("/pets", [("get", Operation.mk false ["Pet", "Store"])])] [] []) false).edges ∧
      (tagFolderId "Store", tagRequestId "Store" "/pets" "get")
        ∈ (_generateTreeFromTags
          (OpenAPI.mk [("/pets", [("get", Operation.mk false ["Pet", "Store"])])] [] []) false).edges) :=
  ⟨⟨by decide, by decide, by decide, by decide, by decide, by decide⟩,
    c2_tag_fanout (OpenAPI.mk [("/pets", [("get", Operation.mk false ["Pet", "Store"])])] [] [])
      false "/pets" [("get", Operation.mk false ["Pet", "Store"])] "get"
      (Operation.mk false ["Pet", "Store"]) "Pet" "Store"
      (by decide) (by decide) (by decide) (Or.inr (by decide)) (by decide) (by decide)
      (by decide)⟩

/-- C4.  Dispatcher failure atomicity: any `folderStrategy` other than
`"paths"` or `"tags"` makes the entry point fail with the configuration
error; no graph value is returned at all. -/
theorem c4_invalid_strategy (openapi : OpenAPI) (options : GenOptions)
    (h1 : options.folderStrategy ≠ "paths") (h2 : options.folderStrategy ≠ "tags") :
    generateSkeletionTreeFromOpenAPI openapi options =
      Except.error "generateSkeletonTreeFromOpenAPI~folderStrategy not valid" := by
  unfold generateSkeletionTreeFromOpenAPI
  rw [if_neg h2, if_neg h1]

/-- Witness for C4 at the strategy string `"folders"`. -/
theorem c4_witness :
    (("folders" : String) ≠ "paths" ∧ ("folders" : String) ≠ "tags") ∧
    generateSkeletionTreeFromOpenAPI {} (GenOptions.mk "folders" true true) =
      Except.error "generateSkeletonTreeFromOpenAPI~folderStrategy not valid" :=
  ⟨⟨by decide, by decide⟩,
    c4_invalid_strategy {} (GenOptions.mk "folders" true true) (by decide) (by decide)⟩

/-- C9.  Determinism across runs: two runs of the entry point on identical
input yield the same node list (identifiers, records and order), the same
edge list and the same graph altogether. -/
theorem c9_determinism (openapi : OpenAPI) (options : GenOptions) (g₁ g₂ : Graph)
    (h1 : generateSkeletionTreeFromOpenAPI openapi options = Except.ok g₁)
    (h2 : generateSkeletionTreeFromOpenAPI openapi options = Except.ok g₂) :
    g₁.nodes = g₂.nodes ∧ g₁.edges = g₂.edges ∧ g₁ = g₂ := by
  have hg : g₁ = g₂ := Except.ok.inj (h1.symm.trans h2)
  exact ⟨by rw [hg], by rw [hg], hg⟩

/-- Witness for C9 on a one-path specification. -/
theorem c9_witness :
    generateSkeletionTreeFromOpenAPI (OpenAPI.mk [("/user", [("get", {})])] [] [])
        (GenOptions.mk "paths" false false) =
      Except.ok (_generateTreeFromPathsV2 (OpenAPI.mk [("/user", [("get", {})])] [] []) false) ∧
    ((_generateTreeFromPathsV2 (OpenAPI.mk [("/user", [("get", {})])] [] []) false).nodes =
      (_generateTreeFromPathsV2 (OpenAPI.mk [("/user", [("get", {})])] [] []) false).nodes ∧
    (_generateTreeFromPathsV2 (OpenAPI.mk [("/user", [("get", {})])] [] []) false).edges =
      (_generateTreeFromPathsV2 (OpenAPI.mk [("/user", [("get", {})])] [] []) false).edges ∧
    _generateTreeFromPathsV2 (OpenAPI.mk [("/user", [("get", {})])] [] []) false =
      _generateTreeFromPathsV2 (OpenAPI.mk [("/user", [("get", {})])] [] []) false) :=
  ⟨rfl,
    c9_determinism (OpenAPI.mk [("/user", [("get", {})])] [] [])
      (GenOptions.mk "paths" false false) _ _ rfl rfl⟩

/-! Congruence machinery for the filtering claims C3 and C5. -/

theorem find?_map_keyed {α β : Type} (f : α → β) (l : List (String × α)) (p : String) :
    (l.map (fun e => (e.1, f e.2))).find? (fun e => e.1 == p)
      = (l.find? (fun e => e.1 == p)).map (fun e => (e.1, f e.2)) := by
  induction l with
  | nil => rfl
  | cons e l ih =>
    by_cases h : e.1 = p
    · simp [List.find?_cons, h]
    · have hb : (e.1 == p) = false := by simp [h]
      simp only [List.map_cons, List.find?_cons, hb]
      exact ih

theorem getPathItem_of_paths_map (o o' : OpenAPI) (f : PathItem → PathItem)
    (h : o'.paths = o.paths.map (fun e => (e.1, f e.2))) (hf : f [] = []) (p : String) :
    getPathItem o' p = f (getPathItem o p) := by
  unfold getPathItem
  rw [h, find?_map_keyed]
  cases o.paths.find? (fun e => e.1 == p) with
  | none => simpa using hf.symm
  | some e => rfl

theorem map_fst_of_paths_map (o : OpenAPI) (f : PathItem → PathItem) :
    (o.paths.map (fun e => (e.1, f e.2))).map (fun e => e.1) = o.paths.map (fun e => e.1) := by
  rw [List.map_map]
  rfl

/-! With `includeDeprecated` the `deprecated` flag is never acted on. -/

theorem singleStep_clear (cp seg : String) (t : Graph) (e : String × Operation) :
    singleStep true cp seg t (e.1, clearOp e.2) = singleStep true cp seg t e := by
  unfold singleStep clearOp
  simp

theorem finalStep_clear (cp : String) (s : List String) (idx : Nat) (seg : String)
    (t : Graph) (e : String × Operation) :
    finalStep true cp s idx seg t (e.1, clearOp e.2) = finalStep true cp s idx seg t e := by
  unfold finalStep clearOp
  simp

theorem tagMethodStep_clear (tdm : List (String × Option String)) (p : String)
    (t : Graph) (e : String × Operation) :
    tagMethodStep tdm true p t (e.1, clearOp e.2) = tagMethodStep tdm true p t e := by
  unfold tagMethodStep clearOp
  simp

theorem webhookMethodStep_clear (name : String) (t : Graph) (e : String × Operation) :
    webhookMethodStep true name t (e.1, clearOp e.2) = webhookMethodStep true name t e := by
  unfold webhookMethodStep clearOp
  simp

theorem foldl_clearItem {f : Graph → (String × Operation) → Graph}
    (hf : ∀ t e, f t (e.1, clearOp e.2) = f t e) (item : PathItem) (t : Graph) :
    (clearItem item).foldl f t = item.foldl f t := by
  unfold clearItem
  rw [List.foldl_map]
  exact foldl_congr _ _ (fun t' e _ => hf t' e)

theorem segStep_clear (o : OpenAPI) (cp : String) (s : List String) (t : Graph)
    (idxSeg : Nat × String) :
    segStep (clearDeprecated o) true cp s t idxSeg = segStep o true cp s t idxSeg := by
  unfold segStep
  split
  · rw [getPathItem_of_paths_map o (clearDeprecated o) clearItem rfl rfl cp]
    exact foldl_clearItem (fun t' e => finalStep_clear cp s idxSeg.1 idxSeg.2 t' e) _ t
  · rfl

theorem processPath_clear (o : OpenAPI) (cp : String) (t : Graph) :
    processPath (clearDeprecated o) true t cp = processPath o true t cp := by
  unfold processPath
  rw [getPathItem_of_paths_map o (clearDeprecated o) clearItem rfl rfl cp]
  split
  · exact foldl_clearItem (fun t' e => singleStep_clear cp _ t' e) _ t
  · exact foldl_congr _ _ (fun t' is _ => segStep_clear o cp _ t' is)

theorem pathsV2_clear (o : OpenAPI) :
    _generateTreeFromPathsV2 (clearDeprecated o) true = _generateTreeFromPathsV2 o true := by
  unfold _generateTreeFromPathsV2
  rw [show (clearDeprecated o).paths = o.paths.map (fun e => (e.1, clearItem e.2)) from rfl,
    map_fst_of_paths_map]
  split
  · rfl
  · exact foldl_congr _ _ (fun t p _ => processPath_clear o p t)

theorem tagPathStep_clear (tdm : List (String × Option String)) (t : Graph)
    (e : String × PathItem) :
    tagPathStep tdm true t (e.1, clearItem e.2) = tagPathStep tdm true t e := by
  unfold tagPathStep
  exact foldl_clearItem (fun t' e' => tagMethodStep_clear tdm e.1 t' e') _ t

theorem tags_clear (o : OpenAPI) :
    _generateTreeFromTags (clearDeprecated o) true = _generateTreeFromTags o true := by
  unfold _generateTreeFromTags
  rw [show (clearDeprecated o).tags = o.tags from rfl,
    show (clearDeprecated o).paths = o.paths.map (fun e => (e.1, clearItem e.2)) from rfl,
    List.foldl_map]
  exact foldl_congr _ _ (fun t e _ => tagPathStep_clear (tagDescMapOf o.tags) t e)

theorem webhookPathStep_clear (t : Graph) (e : String × PathItem) :
    webhookPathStep true t (e.1, clearItem e.2) = webhookPathStep true t e := by
  unfold webhookPathStep
  exact foldl_clearItem (fun t' e' => webhookMethodStep_clear e.1 t' e') _ t

theorem webhookEndpoints_clear (o : OpenAPI) (tree : Graph) :
    _generateWebhookEndpoints (clearDeprecated o) tree true =
      _generateWebhookEndpoints o tree true := by
  unfold _generateWebhookEndpoints
  rw [show (clearDeprecated o).webhooks = o.webhooks.map (fun e => (e.1, clearItem e.2)) from rfl,
    List.foldl_map]
  have hemp : (o.webhooks.map (fun e => (e.1, clearItem e.2))).isEmpty = o.webhooks.isEmpty := by
    cases o.webhooks <;> rfl
  rw [hemp]
  exact foldl_congr _ _ (fun t e _ => webhookPathStep_clear t e)

/-! With `includeDeprecated = false`, deprecated entries act as absent. -/

theorem singleStep_skip_dep (cp seg : String) (t : Graph) (e : String × Operation)
    (hd : (!e.2.deprecated) = false) : singleStep false cp seg t e = t := by
  unfold singleStep
  split
  · rfl
  · rw [if_pos (by simp at hd; simp [hd])]

theorem finalStep_skip_dep (cp : String) (s : List String) (idx : Nat) (seg : String)
    (t : Graph) (e : String × Operation) (hd : (!e.2.deprecated) = false) :
    finalStep false cp s idx seg t e = t := by
  unfold finalStep
  split
  · rfl
  · rw [if_pos (by simp at hd; simp [hd])]

theorem tagMethodStep_skip_dep (tdm : List (String × Option String)) (p : String)
    (t : Graph) (e : String × Operation) (hd : (!e.2.deprecated) = false) :
    tagMethodStep tdm false p t e = t := by
  unfold tagMethodStep
  split
  · rfl
  · rw [if_pos (by simp at hd; simp [hd])]

theorem webhookMethodStep_skip_dep (name : String) (t : Graph) (e : String × Operation)
    (hd : (!e.2.deprecated) = false) : webhookMethodStep false name t e = t := by
  unfold webhookMethodStep
  rw [if_pos (by simp at hd; simp [hd])]

theorem foldl_dropItem {f : Graph → (String × Operation) → Graph}
    (hf : ∀ t e, (!e.2.deprecated) = false → f t e = t) (item : PathItem) (t : Graph) :
    item.foldl f t = (dropItem item).foldl f t :=
  foldl_filter_skip item t (fun t' e _ he => hf t' e he)

theorem segStep_drop (o : OpenAPI) (cp : String) (s : List String) (t : Graph)
    (idxSeg : Nat × String) :
    segStep (dropDeprecated o) false cp s t idxSeg = segStep o false cp s t idxSeg := by
  unfold segStep
  split
  · rw [getPathItem_of_paths_map o (dropDeprecated o) dropItem rfl rfl cp]
    exact (foldl_dropItem (fun t' e he => finalStep_skip_dep cp s idxSeg.1 idxSeg.2 t' e he)
      _ t).symm
  · rfl

theorem processPath_drop (o : OpenAPI) (cp : String) (t : Graph) :
    processPath (dropDeprecated o) false t cp = processPath o false t cp := by
  unfold processPath
  rw [getPathItem_of_paths_map o (dropDeprecated o) dropItem rfl rfl cp]
  split
  · exact (foldl_dropItem (fun t' e he => singleStep_skip_dep cp _ t' e he) _ t).symm
  · exact foldl_congr _ _ (fun t' is _ => segStep_drop o cp _ t' is)

theorem pathsV2_drop (o : OpenAPI) :
    _generateTreeFromPathsV2 (dropDeprecated o) false = _generateTreeFromPathsV2 o false := by
  unfold _generateTreeFromPathsV2
  rw [show (dropDeprecated o).paths = o.paths.map (fun e => (e.1, dropItem e.2)) from rfl,
    map_fst_of_paths_map]
  split
  · rfl
  · exact foldl_congr _ _ (fun t p _ => processPath_drop o p t)

theorem tagPathStep_drop (tdm : List (String × Option String)) (t : Graph)
    (e : String × PathItem) :
    tagPathStep tdm false t (e.1, dropItem e.2) = tagPathStep tdm false t e := by
  unfold tagPathStep
  exact (foldl_dropItem (fun t' e' he => tagMethodStep_skip_dep tdm e.1 t' e' he) _ t).symm

theorem tags_drop (o : OpenAPI) :
    _generateTreeFromTags (dropDeprecated o) false = _generateTreeFromTags o false := by
  unfold _generateTreeFromTags
  rw [show (dropDeprecated o).tags = o.tags from rfl,
    show (dropDeprecated o).paths = o.paths.map (fun e => (e.1, dropItem e.2)) from rfl,
    List.foldl_map]
  exact foldl_congr _ _ (fun t e _ => tagPathStep_drop (tagDescMapOf o.tags) t e)

theorem webhookPathStep_drop (t : Graph) (e : String × PathItem) :
    webhookPathStep false t (e.1, dropItem e.2) = webhookPathStep false t e := by
  unfold webhookPathStep
  exact (foldl_dropItem (fun t' e' he => webhookMethodStep_skip_dep e.1 t' e' he) _ t).symm

theorem webhookEndpoints_drop (o : OpenAPI) (tree : Graph) :
    _generateWebhookEndpoints (dropDeprecated o) tree false =
      _generateWebhookEndpoints o tree false := by
  unfold _generateWebhookEndpoints
  rw [show (dropDeprecated o).webhooks = o.webhooks.map (fun e => (e.1, dropItem e.2)) from rfl,
    List.foldl_map]
  have hemp : (o.webhooks.map (fun e => (e.1, dropItem e.2))).isEmpty = o.webhooks.isEmpty := by
    cases o.webhooks <;> rfl
  rw [hemp]
  exact foldl_congr _ _ (fun t e _ => webhookPathStep_drop t e)

/-- C5.  Deprecation filtering: with `includeDeprecated` the construction is
insensitive to the `deprecated` flags (a deprecated operation yields exactly
the nodes and edges it would yield if not deprecated); without it, deprecated
operations contribute nothing (the result equals the construction over the
specification with the deprecated entries removed). -/
theorem c5_deprecation (openapi : OpenAPI) (options : GenOptions) :
    (options.includeDeprecated = true →
      generateSkeletionTreeFromOpenAPI openapi options =
        generateSkeletionTreeFromOpenAPI (clearDeprecated openapi) options) ∧
    (options.includeDeprecated = false →
      generateSkeletionTreeFromOpenAPI openapi options =
        generateSkeletionTreeFromOpenAPI (dropDeprecated openapi) options) := by
  constructor
  · intro hincl
    unfold generateSkeletionTreeFromOpenAPI
    rw [hincl]
    by_cases ht : options.folderStrategy = "tags"
    · rw [if_pos ht, if_pos ht, tags_clear, webhookEndpoints_clear]
    · rw [if_neg ht, if_neg ht]
      by_cases hp : options.folderStrategy = "paths"
      · rw [if_pos hp, if_pos hp, pathsV2_clear, webhookEndpoints_clear]
      · rw [if_neg hp, if_neg hp]
  · intro hincl
    unfold generateSkeletionTreeFromOpenAPI
    rw [hincl]
    by_cases ht : options.folderStrategy = "tags"
    · rw [if_pos ht, if_pos ht, tags_drop, webhookEndpoints_drop]
    · rw [if_neg ht, if_neg ht]
      by_cases hp : options.folderStrategy = "paths"
      · rw [if_pos hp, if_pos hp, pathsV2_drop, webhookEndpoints_drop]
      · rw [if_neg hp, if_neg hp]

/-- Witness for C5 on a deprecated `delete` next to a live `get`. -/
theorem c5_witness :
    (generateSkeletionTreeFromOpenAPI
        (OpenAPI.mk [("/user", [("get", {}), ("delete", Operation.mk true [])])] []
          [("hook", [("post", Operation.mk true [])])])
        (GenOptions.mk "paths" true true) =
      generateSkeletionTreeFromOpenAPI
        (clearDeprecated (OpenAPI.mk [("/user", [("get", {}), ("delete", Operation.mk true [])])] []
          [("hook", [("post", Operation.mk true [])])]))
        (GenOptions.mk "paths" true true)) ∧
    (generateSkeletionTreeFromOpenAPI
        (OpenAPI.mk [("/user", [("get", {}), ("delete", Operation.mk true [])])] []
          [("hook", [("post", Operation.mk true [])])])
        (GenOptions.mk "paths" true false) =
      generateSkeletionTreeFromOpenAPI
        (dropDeprecated (OpenAPI.mk [("/user", [("get", {}), ("delete", Operation.mk true [])])] []
          [("hook", [("post", Operation.mk true [])])]))
        (GenOptions.mk "paths" true false)) :=
  ⟨(c5_deprecation
      (OpenAPI.mk [("/user", [("get", {}), ("delete", Operation.mk true [])])] []
        [("hook", [("post", Operation.mk true [])])])
      (GenOptions.mk "paths" true true)).1 rfl,
    (c5_deprecation
      (OpenAPI.mk [("/user", [("get", {}), ("delete", Operation.mk true [])])] []
        [("hook", [("post", Operation.mk true [])])])
      (GenOptions.mk "paths" true false)).2 rfl⟩

/-! Disallowed-verb skipping (C3). -/

theorem singleStep_skip_na (incl : Bool) (cp seg : String) (t : Graph)
    (e : String × Operation) (h : allowedMethod e.1 = false) :
    singleStep incl cp seg t e = t := by
  unfold singleStep
  rw [if_pos h]

theorem finalStep_skip_na (incl : Bool) (cp : String) (s : List String) (idx : Nat)
    (seg : String) (t : Graph) (e : String × Operation)
    (h : allowedMethod e.1 = false) : finalStep incl cp s idx seg t e = t := by
  unfold finalStep
  rw [if_pos h]

theorem tagMethodStep_skip_na (tdm : List (String × Option String)) (incl : Bool)
    (p : String) (t : Graph) (e : String × Operation)
    (h : allowedMethod e.1 = false) : tagMethodStep tdm incl p t e = t := by
  unfold tagMethodStep
  rw [if_pos h]

theorem foldl_keepAllowed {f : Graph → (String × Operation) → Graph}
    (hf : ∀ t e, allowedMethod e.1 = false → f t e = t) (item : PathItem) (t : Graph) :
    item.foldl f t = (keepAllowedItem item).foldl f t :=
  foldl_filter_skip item t (fun t' e _ he => hf t' e he)

theorem segStep_keep (o : OpenAPI) (incl : Bool) (cp : String) (s : List String)
    (t : Graph) (idxSeg : Nat × String) :
    segStep (dropNotAllowed o) incl cp s t idxSeg = segStep o incl cp s t idxSeg := by
  unfold segStep
  split
  · rw [getPathItem_of_paths_map o (dropNotAllowed o) keepAllowedItem rfl rfl cp]
    exact (foldl_keepAllowed (fun t' e he => finalStep_skip_na incl cp s idxSeg.1 idxSeg.2 t' e he)
      _ t).symm
  · rfl

theorem processPath_keep (o : OpenAPI) (incl : Bool) (cp : String) (t : Graph) :
    processPath (dropNotAllowed o) incl t cp = processPath o incl t cp := by
  unfold processPath
  rw [getPathItem_of_paths_map o (dropNotAllowed o) keepAllowedItem rfl rfl cp]
  split
  · exact (foldl_keepAllowed (fun t' e he => singleStep_skip_na incl cp _ t' e he) _ t).symm
  · exact foldl_congr _ _ (fun t' is _ => segStep_keep o incl cp _ t' is)

theorem tagPathStep_keep (tdm : List (String × Option String)) (incl : Bool) (t : Graph)
    (e : String × PathItem) :
    tagPathStep tdm incl t (e.1, keepAllowedItem e.2) = tagPathStep tdm incl t e := by
  unfold tagPathStep
  exact (foldl_keepAllowed (fun t' e' he => tagMethodStep_skip_na tdm incl e.1 t' e' he) _ t).symm

/-- C3 (amended).  Disallowed-verb skipping on paths: removing every key not
in the allowed HTTP method set from the path operation maps leaves both base
strategies' output unchanged — such keys never produce a node or edge there.
Webhook operation maps are not filtered this way (see the counterexample). -/
theorem c3_amended (openapi : OpenAPI) (incl : Bool) :
    _generateTreeFromPathsV2 openapi incl =
      _generateTreeFromPathsV2 (dropNotAllowed openapi) incl ∧
    _generateTreeFromTags openapi incl =
      _generateTreeFromTags (dropNotAllowed openapi) incl := by
  constructor
  · unfold _generateTreeFromPathsV2
    rw [show (dropNotAllowed openapi).paths
        = openapi.paths.map (fun e => (e.1, keepAllowedItem e.2)) from rfl,
      map_fst_of_paths_map]
    split
    · rfl
    · exact (foldl_congr _ _ (fun t p _ => processPath_keep openapi incl p t)).symm
  · unfold _generateTreeFromTags
    rw [show (dropNotAllowed openapi).tags = openapi.tags from rfl,
      show (dropNotAllowed openapi).paths
        = openapi.paths.map (fun e => (e.1, keepAllowedItem e.2)) from rfl,
      List.foldl_map]
    exact (foldl_congr _ _
      (fun t e _ => tagPathStep_keep (tagDescMapOf openapi.tags) incl t e)).symm

/-- C3 counterexample: a non-verb key (`parameters`) under a webhook's
operation map does produce a `webhook~request` node — webhooks are not
filtered by the allowed-method set, contrary to the claim. -/
theorem c3_counterexample :
    allowedMethod "parameters" = false ∧
    (generateSkeletionTreeFromOpenAPI (OpenAPI.mk [] [] [("hook", [("parameters", {})])])
        (GenOptions.mk "paths" true false)).map
      (fun g => g.hasNode (webhookRequestId "hook" "parameters")) = Except.ok true :=
  ⟨by decide, by rfl⟩

/-! Duplicate declared tags (C7). -/

theorem lookupA_foldl_setAssoc (tags : List TagDecl) :
    ∀ (acc : List (String × Option String)) (t : String),
      lookupA (tags.foldl (fun acc d => setAssoc acc d.name d.description) acc) t =
        ((tags.reverse.find? (fun d => d.name == t)).map (fun d => d.description)).or
          (lookupA acc t) := by
  induction tags with
  | nil => intro acc t; rfl
  | cons d tags ih =>
    intro acc t
    rw [List.foldl_cons, ih, List.reverse_cons, List.find?_append]
    cases hfound : tags.reverse.find? (fun d => d.name == t) with
    | some d' => rfl
    | none =>
      by_cases hn : d.name = t
      · have hb : (d.name == t) = true := by simp [hn]
        simp only [List.find?_cons, hb, Option.map_some', Option.none_or, cond_true,
          List.find?_nil]
        rw [← hn, lookupA_setAssoc_self]
        rfl
      · have hb : (d.name == t) = false := by simp [hn]
        simp only [List.find?_cons, hb, Option.none_or, cond_false, List.find?_nil,
          Option.map_none']
        rw [lookupA_setAssoc_ne _ _ _ _ (fun hh => hn hh.symm)]

theorem lookupA_tagDescMapOf (tags : List TagDecl) (t : String) :
    lookupA (tagDescMapOf tags) t =
      (tags.reverse.find? (fun d => d.name == t)).map (fun d => d.description) := by
  unfold tagDescMapOf
  rw [lookupA_foldl_setAssoc]
  cases tags.reverse.find? (fun d => d.name == t) <;> rfl

theorem keys_tagDescMapOf_nodup (tags : List TagDecl) :
    (keys (tagDescMapOf tags)).Nodup := by
  unfold tagDescMapOf
  have h : ∀ (acc : List (String × Option String)), (keys acc).Nodup →
      (keys (tags.foldl (fun acc d => setAssoc acc d.name d.description) acc)).Nodup := by
    induction tags with
    | nil => intro acc hn; exact hn
    | cons d tags ih =>
      intro acc hn
      rw [List.foldl_cons]
      exact ih _ (keys_nodup_setAssoc _ _ _ hn)
  exact h [] List.nodup_nil

theorem getNode_pres_tagFolderStep {t : Graph} {id : String} {r : NodeRecord}
    (h : t.getNode id = some r) (e : String × Option String)
    (hne : id ≠ tagFolderId e.1) : (tagFolderStep t e).getNode id = some r := by
  unfold tagFolderStep
  split
  · exact h
  · rw [setEdge_getNode, getNode_setNode_ne _ _ _ _ hne]
    exact h

theorem hasNode_pres_not_tagFolderStep {t : Graph} {id : String}
    (h : t.hasNode id = false) (e : String × Option String)
    (hne : id ≠ tagFolderId e.1) : (tagFolderStep t e).hasNode id = false := by
  unfold tagFolderStep
  split
  · exact h
  · rw [setEdge_hasNode]
    simp only [Graph.hasNode, getNode_setNode_ne _ _ _ _ hne]
    exact h

theorem tagFolderFold_content :
    ∀ (m : List (String × Option String)) (t0 : Graph),
      (keys m).Nodup →
      (∀ kv ∈ m, t0.hasNode (tagFolderId kv.1) = false) →
      ∀ kv ∈ m, (m.foldl tagFolderStep t0).getNode (tagFolderId kv.1) =
        some (tagFolderRec kv.1 "" kv.2) := by
  intro m
  induction m with
  | nil => intro t0 _ _ kv hkv; exact absurd hkv (List.not_mem_nil kv)
  | cons e m ih =>
    intro t0 hn hfresh kv hkv
    rw [keys_cons] at hn
    have hn' := List.nodup_cons.mp hn
    have hstep : (tagFolderStep t0 e).getNode (tagFolderId e.1) =
        some (tagFolderRec e.1 "" e.2) := by
      unfold tagFolderStep
      rw [if_neg (by rw [hfresh e (List.mem_cons_self e m)]; exact fun hh => Bool.noConfusion hh)]
      rw [setEdge_getNode, getNode_setNode_self]
    rcases List.mem_cons.mp hkv with h | h
    · subst h
      rw [List.foldl_cons]
      refine foldl_pres
        (P := fun (t' : Graph) => t'.getNode (tagFolderId kv.1) = some (tagFolderRec kv.1 "" kv.2))
        _ _ (fun t' b hb ht' => ?_) hstep
      have hne : tagFolderId kv.1 ≠ tagFolderId b.1 := by
        intro hh
        have : kv.1 = b.1 := strAppend_cancel_left hh
        exact hn'.1 (this ▸ List.mem_map.mpr ⟨b, hb, rfl⟩)
      exact getNode_pres_tagFolderStep ht' b hne
    · rw [List.foldl_cons]
      refine ih (tagFolderStep t0 e) hn'.2 (fun kv' hkv' => ?_) kv h
      have hne : tagFolderId kv'.1 ≠ tagFolderId e.1 := by
        intro hh
        have : kv'.1 = e.1 := strAppend_cancel_left hh
        exact hn'.1 (this ▸ List.mem_map.mpr ⟨kv', hkv', rfl⟩)
      exact hasNode_pres_not_tagFolderStep (hfresh kv' (List.mem_cons_of_mem e hkv')) e hne

/-- C7 (amended).  Duplicate declared tags: the tag-name-to-description map
assigns every occurrence in order, so the LAST occurrence in declaration
order wins, and the created folder's `meta.description` carries the last
occurrence's description. -/
theorem c7_amended (tags : List TagDecl) (incl : Bool) (t : String)
    (h : t ∈ tags.map (fun d => d.name)) :
    ∃ d, tags.reverse.find? (fun d => d.name == t) = some d ∧ d.name = t ∧
      (_generateTreeFromTags (OpenAPI.mk [] tags []) incl).getNode (tagFolderId t) =
        some (tagFolderRec t "" d.description) := by
  have hsome : (tags.reverse.find? (fun d => d.name == t)).isSome = true := by
    obtain ⟨d, hd, hname⟩ := List.mem_map.mp h
    exact List.find?_isSome.mpr ⟨d, List.mem_reverse.mpr hd, by simp [hname]⟩
  obtain ⟨d, hd⟩ := Option.isSome_iff_exists.mp hsome
  have hname : d.name = t := by simpa using List.find?_some hd
  have hlook : lookupA (tagDescMapOf tags) t = some d.description := by
    rw [lookupA_tagDescMapOf, hd]
    rfl
  have hkey : (t, d.description) ∈ tagDescMapOf tags := mem_of_lookupA hlook
  refine ⟨d, hd, hname, ?_⟩
  show ((tagDescMapOf tags).foldl tagFolderStep
      (Graph.setNode {} "root:collection" collectionRec)).getNode (tagFolderId t) = _
  exact tagFolderFold_content (tagDescMapOf tags) _ (keys_tagDescMapOf_nodup tags)
    (fun kv _ => by
      simp only [Graph.hasNode, getNode_setNode_ne _ _ _ _ (Ne.symm (root_ne_pathId kv.1))]
      rfl)
    (t, d.description) hkey

/-- Witness for C7 (amended) at duplicated tag `a`. -/
theorem c7_witness :
    (("a" : String) ∈ [TagDecl.mk "a" (some "d1"), TagDecl.mk "a" (some "d2")].map
      (fun d => d.name)) ∧
    (∃ d, [TagDecl.mk "a" (some "d1"), TagDecl.mk "a" (some "d2")].reverse.find?
        (fun d => d.name == "a") = some d ∧ d.name = "a" ∧
      (_generateTreeFromTags
          (OpenAPI.mk [] [TagDecl.mk "a" (some "d1"), TagDecl.mk "a" (some "d2")] []) false).getNode
        (tagFolderId "a") = some (tagFolderRec "a" "" d.description)) :=
  ⟨by decide,
    c7_amended [TagDecl.mk "a" (some "d1"), TagDecl.mk "a" (some "d2")] false "a" (by decide)⟩

/-- C7 counterexample: with descriptors `a: d1` then `a: d2`, the folder for
`a` carries description `d2` — the last occurrence, not the first as the
claim states. -/
theorem c7_counterexample :
    (_generateTreeFromTags
        (OpenAPI.mk [] [TagDecl.mk "a" (some "d1"), TagDecl.mk "a" (some "d2")] []) false).getNode
      (tagFolderId "a") = some (tagFolderRec "a" "" (some "d2")) ∧
    some "d2" ≠ some "d1" := by
  constructor
  · decide
  · decide

/-! Creation-once analysis (C8). -/

theorem writeInv_webhookMethodStep {incl : Bool} {name : String} {t : Graph}
    {e : String × Operation} (h : WriteInv t) :
    WriteInv (webhookMethodStep incl name t e) := by
  unfold webhookMethodStep
  split
  · exact h
  · exact writeInv_setEdge _ _ (writeInv_setNode_request h (Or.inr rfl))

theorem writeInv_webhookPathStep {incl : Bool} {t : Graph} {e : String × PathItem}
    (h : WriteInv t) : WriteInv (webhookPathStep incl t e) :=
  foldl_pres _ t (fun t' e' _ ht' => writeInv_webhookMethodStep ht') h

theorem writeInv_webhookEndpoints (o : OpenAPI) {tree : Graph} (incl : Bool)
    (h : WriteInv tree) (hb : BaseKeys tree) :
    WriteInv (_generateWebhookEndpoints o tree incl) := by
  unfold _generateWebhookEndpoints
  refine foldl_pres _ _ (fun t e _ ht => writeInv_webhookPathStep ht) ?_
  split
  · exact h
  · have hf : tree.hasNode webhookFolderId = false := by
      cases hh : tree.hasNode webhookFolderId with
      | false => rfl
      | true =>
        rcases hb webhookFolderId ((hasNode_iff_mem tree webhookFolderId).mp hh) with h1 | h1
        · exact absurd h1 (by decide)
        · exact absurd h1 (by decide)
    exact writeInv_setEdge _ _ (writeInv_setNode_fresh h hf)

/-- C8 (amended).  Creation-once, as the code actually behaves: node keys are
unique in the store and edge pairs unique in the edge set; every `setNode`
call that creates a collection, folder or webhook-folder record targets an
identifier that does not yet exist (guarded creation); only request-type
writes (`request`, `webhook~request`) may re-target an existing identifier,
overwriting the record (see the counterexample with a duplicated tag). -/
theorem c8_amended (openapi : OpenAPI) (options : GenOptions) (g : Graph)
    (h : generateSkeletionTreeFromOpenAPI openapi options = Except.ok g) :
    (keys g.nodes).Nodup ∧ g.edges.Nodup ∧ List.Pairwise relWrite g.nodeWrites := by
  unfold generateSkeletionTreeFromOpenAPI at h
  by_cases ht : options.folderStrategy = "tags"
  · rw [if_pos ht] at h
    have hg := Except.ok.inj h
    have hw : WriteInv g := by
      rw [← hg]
      split
      · exact writeInv_webhookEndpoints openapi options.includeDeprecated
          (tags_tagInv openapi options.includeDeprecated).1
          (tags_tagInv openapi options.includeDeprecated).2
      · exact (tags_tagInv openapi options.includeDeprecated).1
    exact ⟨hw.1, hw.2.1, hw.2.2.1⟩
  · rw [if_neg ht] at h
    by_cases hp : options.folderStrategy = "paths"
    · rw [if_pos hp] at h
      have hg := Except.ok.inj h
      have hw : WriteInv g := by
        rw [← hg]
        split
        · exact writeInv_webhookEndpoints openapi options.includeDeprecated
            (pathsV2_pathInv openapi options.includeDeprecated).2.1
            (pathsV2_pathInv openapi options.includeDeprecated).2.2
        · exact (pathsV2_pathInv openapi options.includeDeprecated).2.1
      exact ⟨hw.1, hw.2.1, hw.2.2.1⟩
    · rw [if_neg hp] at h
      exact Except.noConfusion h

/-- Witness for C8 (amended) on a one-path specification. -/
theorem c8_witness :
    generateSkeletionTreeFromOpenAPI (OpenAPI.mk [("/user", [("get", {})])] [] [])
        (GenOptions.mk "paths" false false) =
      Except.ok (_generateTreeFromPathsV2 (OpenAPI.mk [("/user", [("get", {})])] [] []) false) ∧
    ((keys (_generateTreeFromPathsV2 (OpenAPI.mk [("/user", [("get", {})])] [] []) false).nodes).Nodup ∧
      (_generateTreeFromPathsV2 (OpenAPI.mk [("/user", [("get", {})])] [] []) false).edges.Nodup ∧
      List.Pairwise relWrite
        (_generateTreeFromPathsV2 (OpenAPI.mk [("/user", [("get", {})])] [] []) false).nodeWrites) :=
  ⟨rfl,
    c8_amended (OpenAPI.mk [("/user", [("get", {})])] [] [])
      (GenOptions.mk "paths" false false) _ rfl⟩

/-- C8 counterexample: with `tags: ["A", "A"]` on one operation, the tag
strategy issues two `setNode` calls for the same request identifier and two
`setEdge` calls for the same pair — creation is not exactly-once. -/
theorem c8_counterexample :
    (generateSkeletionTreeFromOpenAPI
        (OpenAPI.mk [("pets", [("get", Operation.mk false ["A", "A"])])] [] [])
        (GenOptions.mk "tags" false false)).map
      (fun g => ((g.nodeWrites.map (fun e => e.1)).count (tagRequestId "A" "pets" "get"),
        g.edgeWrites.count (tagFolderId "A", tagRequestId "A" "pets" "get"))) =
      Except.ok (2, 2) := by
  rfl

/-! Webhook augmentation (C6). -/

/-- The webhook verbs kept by the deprecation filter
(`!includeDeprecated && data.deprecated` skips). -/
def webhookKeptItem (incl : Bool) (item : PathItem) : PathItem :=
  item.filter (fun e => incl || !e.2.deprecated)

/-- The webhook request entries the augmenter appends, in processing order. -/
def webhookReqList (incl : Bool) (ws : List (String × PathItem)) :
    List (String × NodeRecord) :=
  (ws.map (fun w => (webhookKeptItem incl w.2).map
    (fun me => (webhookRequestId w.1 me.1, webhookRequestRec w.1 me.1)))).join

theorem hasNode_false_of_not_mem {g : Graph} {id : String}
    (h : id ∉ keys g.nodes) : g.hasNode id = false := by
  cases hh : g.hasNode id with
  | false => rfl
  | true => exact absurd ((hasNode_iff_mem g id).mp hh) h

theorem setEdge_edges_fresh {g : Graph} {p c : String} (h : (p, c) ∉ g.edges) :
    (g.setEdge p c).edges = g.edges ++ [(p, c)] := by
  simp only [Graph.setEdge]
  rw [if_neg (fun hc => h ((contains_iff _ _).mp hc))]

theorem strStarts_webhookRequestId (n m : String) :
    strStarts "path~webhook:" (webhookRequestId n m) = true := by
  rw [webhookRequestId]
  exact strStarts_self_append _ _

theorem webhookItemFold_append (incl : Bool) (name : String) :
    ∀ (item : PathItem) (t : Graph),
      (∀ me ∈ webhookKeptItem incl item,
        webhookRequestId name me.1 ∉ keys t.nodes ∧
        (webhookFolderId, webhookRequestId name me.1) ∉ t.edges) →
      ((webhookKeptItem incl item).map (fun me => webhookRequestId name me.1)).Nodup →
      (item.foldl (webhookMethodStep incl name) t).nodes =
        t.nodes ++ (webhookKeptItem incl item).map
          (fun me => (webhookRequestId name me.1, webhookRequestRec name me.1)) ∧
      (item.foldl (webhookMethodStep incl name) t).edges =
        t.edges ++ (webhookKeptItem incl item).map
          (fun me => (webhookFolderId, webhookRequestId name me.1)) := by
  intro item
  induction item with
  | nil => intro t _ _; exact ⟨by simp [webhookKeptItem], by simp [webhookKeptItem]⟩
  | cons e item ih =>
    intro t hfresh hnd
    by_cases hc : (incl || !e.2.deprecated) = true
    · have hkeep : webhookKeptItem incl (e :: item) = e :: webhookKeptItem incl item := by
        unfold webhookKeptItem
        rw [List.filter_cons, if_pos hc]
      rw [hkeep] at hfresh hnd ⊢
      have hfe := hfresh e (List.mem_cons_self e (webhookKeptItem incl item))
      have hdep : (!incl && e.2.deprecated) = false := by
        revert hc
        cases incl <;> cases e.2.deprecated <;> intro hc
        · rfl
        · exact Bool.noConfusion hc
        · rfl
        · rfl
      have hstep : webhookMethodStep incl name t e =
          (t.setNode (webhookRequestId name e.1) (webhookRequestRec name e.1)).setEdge
            webhookFolderId (webhookRequestId name e.1) := by
        unfold webhookMethodStep
        rw [if_neg (by rw [hdep]; exact fun hh => Bool.noConfusion hh)]
      have hn1 : (webhookMethodStep incl name t e).nodes =
          t.nodes ++ [(webhookRequestId name e.1, webhookRequestRec name e.1)] := by
        rw [hstep, setEdge_nodes, setNode_nodes_fresh _ (hasNode_false_of_not_mem hfe.1)]
      have he1 : (webhookMethodStep incl name t e).edges =
          t.edges ++ [(webhookFolderId, webhookRequestId name e.1)] := by
        rw [hstep, setEdge_edges_fresh (by rw [setNode_edges]; exact hfe.2), setNode_edges]
      have hnd' := List.nodup_cons.mp hnd
      have hih := ih (webhookMethodStep incl name t e) ?_ hnd'.2
      · rw [List.foldl_cons]
        constructor
        · rw [hih.1, hn1, List.append_assoc, List.singleton_append, List.map_cons]
        · rw [hih.2, he1, List.append_assoc, List.singleton_append, List.map_cons]
      · intro me hme
        have hne : webhookRequestId name me.1 ≠ webhookRequestId name e.1 := by
          intro hh
          refine hnd'.1 ?_
          show webhookRequestId name e.1 ∈ _
          rw [← hh]
          exact List.mem_map.mpr ⟨me, hme, rfl⟩
        constructor
        · rw [hn1, keys_append]
          intro hmem
          rcases List.mem_append.mp hmem with hm | hm
          · exact (hfresh me (List.mem_cons_of_mem e hme)).1 hm
          · exact hne (List.mem_singleton.mp hm)
        · rw [he1]
          intro hmem
          rcases List.mem_append.mp hmem with hm | hm
          · exact (hfresh me (List.mem_cons_of_mem e hme)).2 hm
          · exact hne (congrArg Prod.snd (List.mem_singleton.mp hm))
    · have hc' : (!incl && e.2.deprecated) = true := by
        revert hc
        cases incl <;> cases e.2.deprecated <;> intro hc
        · exact absurd rfl hc
        · rfl
        · exact absurd rfl hc
        · exact absurd rfl hc
      have hstep : webhookMethodStep incl name t e = t := by
        unfold webhookMethodStep
        rw [if_pos hc']
      have hkeep : webhookKeptItem incl (e :: item) = webhookKeptItem incl item := by
        unfold webhookKeptItem
        rw [List.filter_cons, if_neg hc]
      rw [hkeep] at hfresh hnd
      rw [List.foldl_cons, hstep, hkeep]
      exact ih t hfresh hnd

theorem webhookPathsFold_append (incl : Bool) :
    ∀ (ws : List (String × PathItem)) (t : Graph),
      (∀ e ∈ webhookReqList incl ws,
        e.1 ∉ keys t.nodes ∧ (webhookFolderId, e.1) ∉ t.edges) →
      ((webhookReqList incl ws).map (fun e => e.1)).Nodup →
      (ws.foldl (webhookPathStep incl) t).nodes = t.nodes ++ webhookReqList incl ws ∧
      (ws.foldl (webhookPathStep incl) t).edges =
        t.edges ++ (webhookReqList incl ws).map (fun e => (webhookFolderId, e.1)) := by
  intro ws
  induction ws with
  | nil => intro t _ _; exact ⟨by simp [webhookReqList], by simp [webhookReqList]⟩
  | cons w ws ih =>
    intro t hfresh hnd
    have hHL : webhookReqList incl (w :: ws) =
        (webhookKeptItem incl w.2).map
          (fun me => (webhookRequestId w.1 me.1, webhookRequestRec w.1 me.1))
          ++ webhookReqList incl ws := by
      rfl
    rw [hHL] at hfresh hnd
    have hmapmap : ((webhookKeptItem incl w.2).map
          (fun me => (webhookRequestId w.1 me.1, webhookRequestRec w.1 me.1))).map
            (fun e => e.1)
        = (webhookKeptItem incl w.2).map (fun me => webhookRequestId w.1 me.1) := by
      rw [List.map_map]
      rfl
    rw [List.map_append, hmapmap] at hnd
    have hnd2 := List.nodup_append.mp hnd
    have hinner := webhookItemFold_append incl w.1 w.2 t ?_ hnd2.1
    · have hstep : webhookPathStep incl t w = w.2.foldl (webhookMethodStep incl w.1) t := rfl
      have hih := ih (webhookPathStep incl t w) ?_ hnd2.2.1
      · rw [List.foldl_cons]
        constructor
        · rw [hih.1, hstep, hinner.1, hHL, List.append_assoc]
        · rw [hih.2, hstep, hinner.2, hHL, List.map_append, List.map_map, List.append_assoc]
          rfl
      · intro e he
        have hid : e.1 ∈ (webhookReqList incl ws).map (fun e => e.1) :=
          List.mem_map.mpr ⟨e, he, rfl⟩
        constructor
        · rw [hstep, hinner.1, keys_append]
          intro hmem
          rcases List.mem_append.mp hmem with hm | hm
          · exact (hfresh e (List.mem_append_right _ he)).1 hm
          · have : e.1 ∈ (webhookKeptItem incl w.2).map (fun me => webhookRequestId w.1 me.1) := by
              rw [← hmapmap]
              exact hm
            exact hnd2.2.2 this hid
        · rw [hstep, hinner.2]
          intro hmem
          rcases List.mem_append.mp hmem with hm | hm
          · exact (hfresh e (List.mem_append_right _ he)).2 hm
          · obtain ⟨me, hme, hpair⟩ := List.mem_map.mp hm
            have : e.1 ∈ (webhookKeptItem incl w.2).map (fun me => webhookRequestId w.1 me.1) := by
              refine List.mem_map.mpr ⟨me, hme, ?_⟩
              exact (congrArg Prod.snd hpair)
            exact hnd2.2.2 this hid
    · intro me hme
      have : (webhookRequestId w.1 me.1, webhookRequestRec w.1 me.1)
          ∈ (webhookKeptItem incl w.2).map
            (fun me => (webhookRequestId w.1 me.1, webhookRequestRec w.1 me.1)) :=
        List.mem_map.mpr ⟨me, hme, rfl⟩
      exact hfresh _ (List.mem_append_left _ this)

/-- Edge targets of the base strategies all live in the `path:` namespace. -/
def EdgeT (t : Graph) : Prop := ∀ e ∈ t.edges, strStarts "path:" e.2 = true

theorem mem_setEdge_elim {g : Graph} {p c : String} {e : String × String}
    (h : e ∈ (g.setEdge p c).edges) : e ∈ g.edges ∨ e = (p, c) := by
  simp only [Graph.setEdge] at h
  split at h
  · left; exact h
  · rcases List.mem_append.mp h with h | h
    · left; exact h
    · right; exact List.mem_singleton.mp h

theorem edgeT_setNode {t : Graph} {id : String} {r : NodeRecord} (h : EdgeT t) :
    EdgeT (t.setNode id r) := h

theorem edgeT_setEdge {t : Graph} {p c : String} (h : EdgeT t)
    (hc : strStarts "path:" c = true) : EdgeT (t.setEdge p c) := by
  intro e he
  rcases mem_setEdge_elim he with h1 | h1
  · exact h e h1
  · rw [h1]
    exact hc

theorem strStarts_folderNodeId (a : String) : strStarts "path:" (folderNodeId a) = true := by
  rw [folderNodeId]
  exact strStarts_self_append _ _

theorem strStarts_requestNodeId (a m : String) :
    strStarts "path:" (requestNodeId a m) = true := by
  rw [requestNodeId]
  exact strStarts_self_append _ _

theorem strStarts_tagFolderId (a : String) : strStarts "path:" (tagFolderId a) = true := by
  rw [tagFolderId]
  exact strStarts_self_append _ _

theorem strStarts_tagRequestId (a p m : String) :
    strStarts "path:" (tagRequestId a p m) = true := by
  rw [tagRequestId]
  exact strStarts_self_append _ _

theorem strStarts_noTagRequestId (p m : String) :
    strStarts "path:" (noTagRequestId p m) = true := by
  rw [noTagRequestId]
  exact strStarts_self_append _ _

theorem edgeT_ensureNode {t : Graph} {id : String} {r : NodeRecord} (h : EdgeT t) :
    EdgeT (ensureNode t id r) := by
  unfold ensureNode
  split
  · exact h
  · exact edgeT_setNode h

theorem edgeT_ensureEdge {t : Graph} {p c : String} (h : EdgeT t)
    (hc : strStarts "path:" c = true) : EdgeT (ensureEdge t p c) := by
  unfold ensureEdge
  split
  · exact h
  · exact edgeT_setEdge h hc

theorem edgeT_singleStep {incl : Bool} {cp seg : String} {t : Graph}
    {e : String × Operation} (h : EdgeT t) : EdgeT (singleStep incl cp seg t e) := by
  unfold singleStep
  split
  · exact h
  split
  · exact h
  refine edgeT_setEdge (edgeT_setNode ?_) (strStarts_requestNodeId _ _)
  split
  · exact h
  · exact edgeT_setEdge (edgeT_setNode h) (strStarts_folderNodeId _)

theorem edgeT_finalStep {incl : Bool} {cp : String} {s : List String} {idx : Nat}
    {seg : String} {t : Graph} {e : String × Operation} (h : EdgeT t) :
    EdgeT (finalStep incl cp s idx seg t e) := by
  unfold finalStep
  split
  · exact h
  split
  · exact h
  refine edgeT_setEdge (edgeT_setNode ?_) (strStarts_requestNodeId _ _)
  split
  · exact h
  · exact edgeT_setEdge (edgeT_setNode h) (strStarts_folderNodeId _)

theorem edgeT_segStep {o : OpenAPI} {incl : Bool} {cp : String} {s : List String}
    {t : Graph} {idxSeg : Nat × String} (h : EdgeT t) :
    EdgeT (segStep o incl cp s t idxSeg) := by
  unfold segStep
  split
  · exact foldl_pres _ t (fun t' e _ ht' => edgeT_finalStep ht') h
  · exact edgeT_ensureEdge (edgeT_ensureNode h) (strStarts_folderNodeId _)

theorem edgeT_processPath {o : OpenAPI} {incl : Bool} {cp : String} {t : Graph}
    (h : EdgeT t) : EdgeT (processPath o incl t cp) := by
  unfold processPath
  split
  · exact foldl_pres _ t (fun t' e _ ht' => edgeT_singleStep ht') h
  · exact foldl_pres _ t (fun t' e _ ht' => edgeT_segStep ht') h

theorem edgeT_init : EdgeT (Graph.setNode {} "root:collection" collectionRec) := by
  intro e he
  exact absurd he (List.not_mem_nil e)

theorem pathsV2_edgeT (openapi : OpenAPI) (incl : Bool) :
    EdgeT (_generateTreeFromPathsV2 openapi incl) := by
  unfold _generateTreeFromPathsV2
  split
  · exact edgeT_init
  · exact foldl_pres _ _ (fun t p _ ht => edgeT_processPath ht) edgeT_init

theorem edgeT_tagFolderStep {t : Graph} {e : String × Option String} (h : EdgeT t) :
    EdgeT (tagFolderStep t e) := by
  unfold tagFolderStep
  split
  · exact h
  · exact edgeT_setEdge (edgeT_setNode h) (strStarts_tagFolderId _)

theorem edgeT_tagOpTagStep {tdm : List (String × Option String)} {p m : String}
    {t : Graph} {tag : String} (h : EdgeT t) : EdgeT (tagOpTagStep tdm p m t tag) := by
  refine edgeT_setEdge ?_ (strStarts_tagRequestId _ _ _)
  split
  · exact edgeT_setNode h
  · exact edgeT_setEdge (edgeT_setNode (edgeT_setNode h)) (strStarts_tagFolderId _)

theorem edgeT_tagMethodStep {tdm : List (String × Option String)} {incl : Bool}
    {p : String} {t : Graph} {e : String × Operation} (h : EdgeT t) :
    EdgeT (tagMethodStep tdm incl p t e) := by
  unfold tagMethodStep
  split
  · exact h
  split
  · exact h
  split
  · exact foldl_pres _ t (fun t' tg _ ht' => edgeT_tagOpTagStep ht') h
  · exact edgeT_setEdge (edgeT_setNode h) (strStarts_noTagRequestId _ _)

theorem edgeT_tagPathStep {tdm : List (String × Option String)} {incl : Bool}
    {t : Graph} {e : String × PathItem} (h : EdgeT t) :
    EdgeT (tagPathStep tdm incl t e) :=
  foldl_pres _ t (fun t' e' _ ht' => edgeT_tagMethodStep ht') h

theorem tags_edgeT (openapi : OpenAPI) (incl : Bool) :
    EdgeT (_generateTreeFromTags openapi incl) := by
  unfold _generateTreeFromTags
  refine foldl_pres _ _ (fun t e _ ht => edgeT_tagPathStep ht) ?_
  exact foldl_pres _ _ (fun t e _ ht => edgeT_tagFolderStep ht) edgeT_init

theorem listPre_inv {c : Char} {l d : List Char} (h : listPre (c :: l) d = true) :
    ∃ d', d = c :: d' ∧ listPre l d' = true := by
  cases d with
  | nil => exact Bool.noConfusion h
  | cons b bs =>
    by_cases hc : c = b
    · subst hc
      refine ⟨bs, rfl, ?_⟩
      simpa [listPre] using h
    · rw [show listPre (c :: l) (b :: bs) = false by simp [listPre, hc]] at h
      exact Bool.noConfusion h

/-- A string in the `path:` namespace is not in the `path~webhook:`
namespace. -/
theorem strStarts_path_not_webhook {x : String} (h : strStarts "path:" x = true) :
    strStarts "path~webhook:" x = false := by
  unfold strStarts at h ⊢
  have hdata : ("path:" : String).data = ['p', 'a', 't', 'h', ':'] := rfl
  rw [hdata] at h
  obtain ⟨d1, hd1, h⟩ := listPre_inv h
  obtain ⟨d2, hd2, h⟩ := listPre_inv h
  obtain ⟨d3, hd3, h⟩ := listPre_inv h
  obtain ⟨d4, hd4, h⟩ := listPre_inv h
  obtain ⟨d5, hd5, _⟩ := listPre_inv h
  have hw : ("path~webhook:" : String).data
      = ['p', 'a', 't', 'h', '~', 'w', 'e', 'b', 'h', 'o', 'o', 'k', ':'] := rfl
  rw [hw, hd1, hd2, hd3, hd4, hd5]
  simp [listPre]

/-- Every appended webhook request entry is a `(webhookRequestId, record)`
pair. -/
theorem webhookReqList_mem {incl : Bool} {ws : List (String × PathItem)}
    {e : String × NodeRecord} (h : e ∈ webhookReqList incl ws) :
    ∃ n m, e = (webhookRequestId n m, webhookRequestRec n m) := by
  unfold webhookReqList at h
  obtain ⟨x, hx, hex⟩ := List.mem_join.mp h
  obtain ⟨w, _, hw⟩ := List.mem_map.mp hx
  rw [← hw] at hex
  obtain ⟨me, _, hme⟩ := List.mem_map.mp hex
  exact ⟨w.1, me.1, hme.symm⟩

/-- C6 (amended).  Webhook augmentation: for a tree produced by either base
strategy, empty webhook definitions leave the tree unchanged; non-empty
definitions append exactly one webhook folder node edged from root plus
exactly one webhook request node and edge per kept (non-deprecated unless
included) webhook verb, and nothing else, PROVIDED the generated
`webhookName:verb` identifiers are pairwise distinct — when two kept verbs
concatenate to the same identifier the later write overwrites the earlier
node and fewer nodes result (see the counterexample). -/
theorem c6_webhooks (openapi base : OpenAPI) (tree : Graph) (incl inclBase : Bool)
    (hbase : tree = _generateTreeFromPathsV2 base inclBase ∨
      tree = _generateTreeFromTags base inclBase) :
    (openapi.webhooks = [] → _generateWebhookEndpoints openapi tree incl = tree) ∧
    (openapi.webhooks ≠ [] →
      ((webhookReqList incl openapi.webhooks).map (fun e => e.1)).Nodup →
      (_generateWebhookEndpoints openapi tree incl).nodes =
        tree.nodes ++ (webhookFolderId, webhookFolderRec)
          :: webhookReqList incl openapi.webhooks ∧
      (_generateWebhookEndpoints openapi tree incl).edges =
        tree.edges ++ ("root:collection", webhookFolderId)
          :: (webhookReqList incl openapi.webhooks).map
            (fun e => (webhookFolderId, e.1))) := by
  have hbk : BaseKeys tree := by
    rcases hbase with hb | hb
    · rw [hb]; exact (pathsV2_pathInv base inclBase).2.2
    · rw [hb]; exact (tags_tagInv base inclBase).2
  have het : EdgeT tree := by
    rcases hbase with hb | hb
    · rw [hb]; exact pathsV2_edgeT base inclBase
    · rw [hb]; exact tags_edgeT base inclBase
  have h1 : ∀ k ∈ keys tree.nodes, strStarts "path~webhook:" k = false := by
    intro k hk
    rcases hbk k hk with hr | hr
    · rw [hr]; decide
    · exact strStarts_path_not_webhook hr
  have h2 : ∀ e ∈ tree.edges, strStarts "path~webhook:" e.2 = false := by
    intro e he
    exact strStarts_path_not_webhook (het e he)
  constructor
  · intro h
    unfold _generateWebhookEndpoints
    rw [h]
    rfl
  · intro hne h3
    have hemp : openapi.webhooks.isEmpty = false := by
      cases hw : openapi.webhooks with
      | nil => exact absurd hw hne
      | cons a l => rfl
    have hfold : webhookFolderId ∉ keys tree.nodes := by
      intro hm
      have := h1 webhookFolderId hm
      exact absurd this (by decide)
    have hedge : ("root:collection", webhookFolderId) ∉ tree.edges := by
      intro hm
      have := h2 _ hm
      exact absurd this (by decide)
    have hn1 : ((tree.setNode webhookFolderId webhookFolderRec).setEdge
        "root:collection" webhookFolderId).nodes =
        tree.nodes ++ [(webhookFolderId, webhookFolderRec)] := by
      rw [setEdge_nodes, setNode_nodes_fresh _ (hasNode_false_of_not_mem hfold)]
    have he1 : ((tree.setNode webhookFolderId webhookFolderRec).setEdge
        "root:collection" webhookFolderId).edges =
        tree.edges ++ [("root:collection", webhookFolderId)] := by
      rw [setEdge_edges_fresh (by rw [setNode_edges]; exact hedge), setNode_edges]
    unfold _generateWebhookEndpoints
    rw [hemp]
    simp only [Bool.false_eq_true, if_neg, ite_false]
    have hmain := webhookPathsFold_append incl openapi.webhooks
      ((tree.setNode webhookFolderId webhookFolderRec).setEdge
        "root:collection" webhookFolderId) ?_ h3
    · constructor
      · rw [hmain.1, hn1, List.append_assoc, List.singleton_append]
      · rw [hmain.2, he1, List.append_assoc, List.singleton_append]
    · intro e he
      obtain ⟨n, m, hshape⟩ := webhookReqList_mem he
      have hpre : strStarts "path~webhook:" e.1 = true := by
        rw [hshape]
        exact strStarts_webhookRequestId n m
      constructor
      · rw [hn1, keys_append]
        intro hmem
        rcases List.mem_append.mp hmem with hm | hm
        · rw [h1 e.1 hm] at hpre
          exact Bool.noConfusion hpre
        · have : e.1 = webhookFolderId := by simpa [keys] using hm
          rw [hshape] at this
          exact webhookRequestId_ne_folder n m this
      · rw [he1]
        intro hmem
        rcases List.mem_append.mp hmem with hm | hm
        · rw [h2 _ hm] at hpre
          exact Bool.noConfusion hpre
        · have := List.mem_singleton.mp hm
          have hfst : webhookFolderId = "root:collection" := congrArg Prod.fst this
          exact absurd hfst (by decide)

/-- Witness for C6: both the empty-webhooks branch and the non-empty branch,
over the root-only base tree of the path strategy. -/
theorem c6_witness :
    (_generateWebhookEndpoints (OpenAPI.mk [] [] []) (_generateTreeFromPathsV2 {} false) false =
      _generateTreeFromPathsV2 {} false) ∧
    ((_generateWebhookEndpoints (OpenAPI.mk [] [] [("hook", [("post", {}), ("ping", Operation.mk true [])])])
        (_generateTreeFromPathsV2 {} false) false).nodes =
      (_generateTreeFromPathsV2 {} false).nodes ++ (webhookFolderId, webhookFolderRec)
        :: webhookReqList false [("hook", [("post", {}), ("ping", Operation.mk true [])])] ∧
    (_generateWebhookEndpoints (OpenAPI.mk [] [] [("hook", [("post", {}), ("ping", Operation.mk true [])])])
        (_generateTreeFromPathsV2 {} false) false).edges =
      (_generateTreeFromPathsV2 {} false).edges ++ ("root:collection", webhookFolderId)
        :: (webhookReqList false [("hook", [("post", {}), ("ping", Operation.mk true [])])]).map
          (fun e => (webhookFolderId, e.1))) :=
  ⟨(c6_webhooks (OpenAPI.mk [] [] []) {} (_generateTreeFromPathsV2 {} false) false false
      (Or.inl rfl)).1 rfl,
    (c6_webhooks (OpenAPI.mk [] [] [("hook", [("post", {}), ("ping", Operation.mk true [])])])
      {} (_generateTreeFromPathsV2 {} false) false false (Or.inl rfl)).2 (by decide)
      (by decide)⟩

/-! Filtered-out operations on multi-segment paths (C10). -/

theorem joinSegs_cons (a : String) (l : List String) :
    joinSegs (a :: l) = if l.isEmpty then a else a ++ "/" ++ joinSegs l := by
  cases l with
  | nil => rfl
  | cons b m => rfl

theorem joinSegs_cons_length (a : String) (l : List String) :
    (joinSegs (a :: l)).length =
      if l.isEmpty then a.length else a.length + 1 + (joinSegs l).length := by
  cases l with
  | nil => rfl
  | cons b m =>
    show (a ++ "/" ++ joinSegs (b :: m)).length = a.length + 1 + (joinSegs (b :: m)).length
    rw [String.length_append, String.length_append]
    have h1 : ("/" : String).length = 1 := rfl
    rw [h1]

theorem strLen_pos {s : String} (h : s ≠ "") : 0 < s.length := by
  cases hs : s.data with
  | nil => exact absurd (String.ext (by rw [hs])) h
  | cons c cs =>
    show 0 < s.data.length
    rw [hs]
    simp

theorem joinSegs_length_lt :
    ∀ (s : List String), (∀ x ∈ s, x ≠ "") → ∀ k, k < s.length →
      (joinSegs (s.take k)).length < (joinSegs s).length := by
  intro s
  induction s with
  | nil => intro _ k hk; simp at hk
  | cons a rest ih =>
    intro hall k hk
    have ha : a ≠ "" := hall a (List.mem_cons_self a rest)
    cases k with
    | zero =>
      show (joinSegs []).length < (joinSegs (a :: rest)).length
      rw [joinSegs_cons_length]
      have h0 : (joinSegs []).length = 0 := rfl
      rw [h0]
      have := strLen_pos ha
      by_cases hre : rest.isEmpty = true
      · rw [if_pos hre]; omega
      · rw [if_neg hre]; omega
    | succ j =>
      have hj : j < rest.length := by
        simp only [List.length_cons] at hk
        omega
      have hrest : rest ≠ [] := by
        intro hh
        rw [hh] at hj
        simp at hj
      have hre : rest.isEmpty = false := by
        cases rest with
        | nil => exact absurd rfl hrest
        | cons x xs => rfl
      rw [List.take_succ_cons, joinSegs_cons_length, joinSegs_cons_length, hre]
      have hfalse : ¬(false = true) := fun hh => Bool.noConfusion hh
      by_cases hej : (rest.take j).isEmpty = true
      · rw [if_pos hej, if_neg hfalse]
        omega
      · rw [if_neg hej, if_neg hfalse]
        have hlt := ih (fun x hx => hall x (List.mem_cons_of_mem a hx)) j hj
        omega

theorem joinSegs_take_ne {s : List String} (hall : ∀ x ∈ s, x ≠ "") {k : Nat}
    (hk : k < s.length) : joinSegs (s.take k) ≠ joinSegs s := by
  intro hh
  have := joinSegs_length_lt s hall k hk
  rw [hh] at this
  omega

theorem pathSplitOf_ne_empty {p : String} (hlen : 2 ≤ (pathSplitOf p).length) :
    ∀ x ∈ pathSplitOf p, x ≠ "" := by
  by_cases hp : p = "/"
  · unfold pathSplitOf at hlen
    rw [if_pos hp] at hlen
    simp at hlen
  · intro x hx
    unfold pathSplitOf at hx
    rw [if_neg hp] at hx
    have hbe := (List.mem_filter.mp hx).2
    intro he
    rw [he] at hbe
    exact absurd hbe (by decide)

theorem getPathItem_singleton (p : String) (item : PathItem) (tg : List TagDecl)
    (wh : List (String × PathItem)) :
    getPathItem (OpenAPI.mk [(p, item)] tg wh) p = item := by
  unfold getPathItem
  simp [List.find?_cons]

theorem singleStep_skip (incl : Bool) (cp seg : String) (t : Graph)
    (e : String × Operation)
    (h : allowedMethod e.1 = false ∨ (!incl && e.2.deprecated) = true) :
    singleStep incl cp seg t e = t := by
  unfold singleStep
  rcases h with h | h
  · rw [if_pos h]
  · by_cases ha : allowedMethod e.1 = false
    · rw [if_pos ha]
    · rw [if_neg ha, if_pos h]

theorem finalStep_skip (incl : Bool) (cp : String) (s : List String) (idx : Nat)
    (seg : String) (t : Graph) (e : String × Operation)
    (h : allowedMethod e.1 = false ∨ (!incl && e.2.deprecated) = true) :
    finalStep incl cp s idx seg t e = t := by
  unfold finalStep
  rcases h with h | h
  · rw [if_pos h]
  · by_cases ha : allowedMethod e.1 = false
    · rw [if_pos ha]
    · rw [if_neg ha, if_pos h]

theorem foldl_skip_all {α β : Type} {f : β → α → β} :
    ∀ (l : List α) (t : β), (∀ t a, a ∈ l → f t a = t) → l.foldl f t = t := by
  intro l
  induction l with
  | nil => intro t _; rfl
  | cons a l ih =>
    intro t h
    rw [List.foldl_cons, h t a (List.mem_cons_self a l)]
    exact ih t (fun t' b hb => h t' b (List.mem_cons_of_mem a hb))

theorem mem_setAssoc_elim {α : Type} :
    ∀ (m : List (String × α)) (k : String) (v : α) (e : String × α),
      e ∈ setAssoc m k v → e ∈ m ∨ e = (k, v) := by
  intro m
  induction m with
  | nil =>
    intro k v e he
    right
    simpa [setAssoc] using List.mem_singleton.mp he
  | cons x m ih =>
    intro k v e he
    rw [setAssoc_cons] at he
    by_cases hx : x.1 = k
    · rw [if_pos hx] at he
      rcases List.mem_cons.mp he with h | h
      · right; exact h
      · left; exact List.mem_cons_of_mem x h
    · rw [if_neg hx] at he
      rcases List.mem_cons.mp he with h | h
      · left
        rw [h]
        exact List.mem_cons_self x m
      · rcases ih k v e h with h' | h'
        · left; exact List.mem_cons_of_mem x h'
        · right; exact h'

theorem hasNode_ensureNode_other {t : Graph} {id id' : String} {r : NodeRecord}
    (hne : id' ≠ id) : (ensureNode t id r).hasNode id' = t.hasNode id' := by
  unfold ensureNode
  split
  · rfl
  · simp only [Graph.hasNode, getNode_setNode_ne _ _ _ _ hne]

theorem mem_nodes_ensureNode {t : Graph} {id : String} {r : NodeRecord}
    {e : String × NodeRecord} (h : e ∈ (ensureNode t id r).nodes) :
    e ∈ t.nodes ∨ e = (id, r) := by
  unfold ensureNode at h
  split at h
  · left; exact h
  · exact mem_setAssoc_elim _ _ _ _ h

theorem ensureEdge_nodes (t : Graph) (p c : String) : (ensureEdge t p c).nodes = t.nodes := by
  unfold ensureEdge
  split <;> rfl

theorem ensureEdge_hasNode (t : Graph) (p c id : String) :
    (ensureEdge t p c).hasNode id = t.hasNode id := by
  unfold ensureEdge
  split <;> rfl

/-- C10.  A multi-segment path whose operation entries are all filtered out
(non-allowed key, or deprecated without `includeDeprecated`) still creates
its ancestor folders with their edges, but creates no folder for the full
path identifier and no request node at all; a single-segment path in the
same situation creates nothing beyond the root. -/
theorem c10_filtered_path (p : String) (item : PathItem) (incl : Bool)
    (hall : ∀ e ∈ item, allowedMethod e.1 = false ∨ (!incl && e.2.deprecated) = true) :
    (2 ≤ (pathSplitOf p).length →
      (∀ k, 1 ≤ k → k < (pathSplitOf p).length →
        FolderAt (_generateTreeFromPathsV2 (OpenAPI.mk [(p, item)] [] []) incl)
          (folderNodeId (joinSegs ((pathSplitOf p).take k))) ∧
        ((if k = 1 then "root:collection"
          else folderNodeId (joinSegs ((pathSplitOf p).take (k - 1)))),
          folderNodeId (joinSegs ((pathSplitOf p).take k)))
          ∈ (_generateTreeFromPathsV2 (OpenAPI.mk [(p, item)] [] []) incl).edges) ∧
      (_generateTreeFromPathsV2 (OpenAPI.mk [(p, item)] [] []) incl).hasNode
        (folderNodeId (joinSegs (pathSplitOf p))) = false ∧
      (∀ e ∈ (_generateTreeFromPathsV2 (OpenAPI.mk [(p, item)] [] []) incl).nodes,
        e.2.type ≠ "request")) ∧
    ((pathSplitOf p).length = 1 →
      _generateTreeFromPathsV2 (OpenAPI.mk [(p, item)] [] []) incl =
        Graph.setNode {} "root:collection" collectionRec) := by
  have hg : _generateTreeFromPathsV2 (OpenAPI.mk [(p, item)] [] []) incl =
      processPath (OpenAPI.mk [(p, item)] [] []) incl
        (Graph.setNode {} "root:collection" collectionRec) p := rfl
  constructor
  · intro hlen2
    have hallne := pathSplitOf_ne_empty hlen2
    refine ⟨?_, ?_⟩
    · intro k hk1 hk2
      have hpar : (if k = 1 then "root:collection"
            else folderNodeId (joinSegs ((pathSplitOf p).take (k - 1))))
          = (if k - 1 = 0 then "root:collection"
            else folderNodeId (joinSegs ((pathSplitOf p).take (k - 1)))) := by
        by_cases h1 : k = 1
        · rw [if_pos h1, if_pos (by omega)]
        · rw [if_neg h1, if_neg (by omega)]
      rw [hg, hpar]
      exact processPath_estab hk1 hk2 pathInv_init
    · rw [hg]
      have hlen1 : ¬((pathSplitOf p).length = 1) := by omega
      unfold processPath
      rw [if_neg hlen1]
      refine foldl_pres
        (P := fun (t : Graph) =>
          t.hasNode (folderNodeId (joinSegs (pathSplitOf p))) = false ∧
          ∀ e ∈ t.nodes, e.2.type ≠ "request")
        _ _ ?_ ?_
      · intro t b hb ht
        unfold segStep
        split
        · rw [getPathItem_singleton,
            foldl_skip_all _ t (fun t' e he =>
              finalStep_skip incl p (pathSplitOf p) b.1 b.2 t' e (hall e he))]
          exact ht
        · next hnfin =>
          have hbound := enumFrom_mem_bound hb
          have hidx : b.1 + 1 < (pathSplitOf p).length := by omega
          have hne_id : folderNodeId (joinSegs ((pathSplitOf p).take (b.1 + 1)))
              ≠ folderNodeId (joinSegs (pathSplitOf p)) := by
            intro hh
            exact joinSegs_take_ne hallne hidx (folderNodeId_inj hh)
          constructor
          · rw [ensureEdge_hasNode, hasNode_ensureNode_other (Ne.symm hne_id)]
            exact ht.1
          · intro e he
            rw [ensureEdge_nodes] at he
            rcases mem_nodes_ensureNode he with h | h
            · exact ht.2 e h
            · rw [h]
              intro hty
              exact absurd (show ("folder" : String) = "request" from hty) (by decide)
      · constructor
        · simp only [Graph.hasNode,
            getNode_setNode_ne _ _ _ _ (Ne.symm (root_ne_folderNodeId _))]
          rfl
        · intro e he
          have heq : e = ("root:collection", collectionRec) := List.mem_singleton.mp he
          rw [heq]
          intro hty
          exact absurd hty (by decide)
  · intro hlen1
    rw [hg]
    unfold processPath
    rw [if_pos hlen1, getPathItem_singleton]
    exact foldl_skip_all _ _
      (fun t' e he => singleStep_skip incl p (headSeg (pathSplitOf p)) t' e (hall e he))

/-- Witness for C10 at `/a/b/c` with a deprecated `get` and a `parameters`
key, plus at single-segment `/a`. -/
theorem c10_witness :
    ((∀ e ∈ [("get", Operation.mk true []), ("parameters", Operation.mk false [])],
        allowedMethod e.1 = false ∨ (!false && e.2.deprecated) = true) ∧
      2 ≤ (pathSplitOf "/a/b/c").length) ∧
    (FolderAt (_generateTreeFromPathsV2
        (OpenAPI.mk [("/a/b/c", [("get", Operation.mk true []), ("parameters", Operation.mk false [])])] [] []) false)
      (folderNodeId (joinSegs ((pathSplitOf "/a/b/c").take 1))) ∧
    (_generateTreeFromPathsV2
        (OpenAPI.mk [("/a/b/c", [("get", Operation.mk true []), ("parameters", Operation.mk false [])])] [] []) false).hasNode
      (folderNodeId (joinSegs (pathSplitOf "/a/b/c"))) = false ∧
    (∀ e ∈ (_generateTreeFromPathsV2
        (OpenAPI.mk [("/a/b/c", [("get", Operation.mk true []), ("parameters", Operation.mk false [])])] [] []) false).nodes,
      e.2.type ≠ "request")) ∧
    _generateTreeFromPathsV2
      (OpenAPI.mk [("/a", [("get", Operation.mk true [])])] [] []) false =
      Graph.setNode {} "root:collection" collectionRec :=
  ⟨⟨by decide, by decide⟩,
    ⟨((c10_filtered_path "/a/b/c"
        [("get", Operation.mk true []), ("parameters", Operation.mk false [])] false
        (by decide)).1 (by decide)).1 1 (by decide) (by decide) |>.1,
      ((c10_filtered_path "/a/b/c"
        [("get", Operation.mk true []), ("parameters", Operation.mk false [])] false
        (by decide)).1 (by decide)).2.1,
      ((c10_filtered_path "/a/b/c"
        [("get", Operation.mk true []), ("parameters", Operation.mk false [])] false
        (by decide)).1 (by decide)).2.2⟩,
    (c10_filtered_path "/a" [("get", Operation.mk true [])] false (by decide)).2 (by decide)⟩

/-- C6 counterexample: webhook names `a:b` and `a` with verbs `c` and `b:c`
are four distinct JS object keys, yet both kept verbs concatenate to the
identifier `path~webhook:a:b:c`; the augmenter leaves a single webhook
request node for two non-deprecated webhook verbs, refuting one node per
verb. -/
theorem c6_counterexample :
    (webhookReqList false [("a:b", [("c", {})]), ("a", [("b:c", {})])]).length = 2 ∧
    (∀ w ∈ [(("a:b" : String), [(("c" : String), ({} : Operation))]),
        ("a", [("b:c", {})])], ∀ e ∈ w.2, e.2.deprecated = false) ∧
    webhookRequestId "a:b" "c" = webhookRequestId "a" "b:c" ∧
    (generateSkeletionTreeFromOpenAPI
        (OpenAPI.mk [] [] [("a:b", [("c", {})]), ("a", [("b:c", {})])])
        (GenOptions.mk "paths" true false)).map
      (fun g => g.nodes.countP (fun e => e.2.type == "webhook~request")) =
      Except.ok 1 ∧
    (1 : Nat) ≠ 2 :=
  ⟨by decide, by decide, by decide, by rfl, by decide⟩

end O2P

